import Mathlib

/-!
Shallow embedding of the two recursive-descent parsers of this repository:
`runner.py` (the evaluating engine, namespace `Runner`) and `parser.py`
(the recognize-only engine, namespace `Recog`), together with a reference
AST semantics used to state correctness, and proofs settling the frozen
claims about the specification.

Tokens are modelled as the pairs `(la, val)` of strings that
`plex.Scanner.read()` hands the Python code: `la` is the token kind
(for the keyword and operator patterns, the matched text itself, since the
lexicon uses the `plex.TEXT` action), `val` the matched text.  End of input
(Python `la is None`) is the empty remainder of the token list.  The
mutually recursive parsing procedures are embedded with a fuel parameter
(`none` = fuel exhausted); the Python originals always terminate, and the
correctness theorems provide explicit sufficient fuel.
-/

/-- A token as produced by the plex scanner: kind string and matched text. -/
structure Tok where
  la : String
  val : String
deriving DecidableEq, Repr

/-- The two error species of the evaluating engine: `ParseError` (caught by
the driver) and the `RuntimeError` raised for an identifier referenced
before assignment (uncaught by the driver). -/
inductive Err where
  | parseError (msg : String)
  | undefinedVar (name : String)
deriving DecidableEq, Repr

/-- The value `MyParser.evaluate` can return in `runner.py`: a Python int
for a binary token, an int or `None` for an id token (symbol-table lookup),
and the raw text for every other token kind. -/
inductive PyVal where
  | int (n : Nat)
  | none
  | str (s : String)
deriving DecidableEq, Repr

/-- Integer payload of a `PyVal`; every value that reaches the bitwise
folds is an `int`, so the other cases are unreachable defaults. -/
def PyVal.toNat : PyVal → Nat
  | .int n => n
  | _ => 0

/-- Symbol-table lookup, `self.st.get(name)` on the Python dict. -/
def stGet : List (String × Nat) → String → Option Nat
  | [], _ => Option.none
  | (k, v) :: rest, x => if k = x then some v else stGet rest x

/-- Symbol-table store, `self.st[name] = v` on the Python dict
(overwrites the binding if the key is present). -/
def stSet : List (String × Nat) → String → Nat → List (String × Nat)
  | [], x, v => [(x, v)]
  | (k, w) :: rest, x, v =>
      if k = x then (x, v) :: rest else (k, w) :: stSet rest x v

/-- `int(text, 2)` on a string of binary digits. -/
def binToNat (s : String) : Nat :=
  s.data.foldl (fun a c => 2 * a + (if c = '1' then 1 else 0)) 0

/-- Digits of `n` in base 2, most significant first, empty for zero; the
first argument is fuel (any bound on `n`), keeping the recursion
structural so that concrete runs reduce. -/
def bitsOfAux : Nat → Nat → List Char
  | 0, _ => []
  | f + 1, n =>
      if n = 0 then []
      else bitsOfAux f (n / 2) ++ [if n % 2 = 1 then '1' else '0']

/-- Digits of `n` in base 2, most significant first, empty for zero. -/
def bitsOf (n : Nat) : List Char :=
  bitsOfAux n n

/-- Python `"\x7b:b\x7d".format(n)`: minimal binary rendering, `"0"` for zero. -/
def fmtB (n : Nat) : String :=
  if n = 0 then "0" else ⟨bitsOf n⟩

/-- Parser/evaluator state: remaining tokens (the head is the current
lookahead), the symbol table `self.st`, and the lines printed so far. -/
structure PState where
  toks : List Tok
  st : List (String × Nat)
  out : List String
deriving DecidableEq, Repr

/-- Current lookahead kind `self.la`; `Option.none` is Python `None`. -/
def la? (s : PState) : Option String :=
  s.toks.head?.map Tok.la

/-- Current matched text `self.val` (empty at end of input). -/
def val? (s : PState) : String :=
  (s.toks.head?.map Tok.val).getD ""

/-- Rendering of the current lookahead inside error messages
(Python formats `None` as the string `None`). -/
def laStr (s : PState) : String :=
  match s.toks.head? with
  | some t => t.la
  | Option.none => "None"

/-- Outcome of one parsing procedure of the evaluating engine: a result
with the state after it, or an error with the state at the raise site. -/
inductive PRes (α : Type) where
  | ok (a : α) (s : PState)
  | err (e : Err) (s : PState)
deriving DecidableEq, Repr

/-- The state a procedure left behind, whether it returned or raised. -/
def PRes.state {α : Type} : PRes α → PState
  | .ok _ s => s
  | .err _ s => s

/-- The same outcome over an input stream extended by `extra` unread
tokens: the left-behind remainder carries the extension. -/
def PRes.appendToks {α : Type} (extra : List Tok) : PRes α → PRes α
  | .ok a s => .ok a { s with toks := s.toks ++ extra }
  | .err e s => .err e { s with toks := s.toks ++ extra }

namespace Runner

/-- `MyParser.evaluate` of `runner.py`, applied to the current token
(only called by `matchTok` when the lookahead is not `None`). -/
def evaluate (st : List (String × Nat)) (t : Tok) : PyVal :=
  if t.la = "binary" then .int (binToNat t.val)
  else if t.la = "id" then
    match stGet st t.val with
    | some n => .int n
    | Option.none => .none
  else .str t.val

/-- `MyParser.match` of `runner.py`: on the expected kind, evaluate the
current token, consume it and return the evaluation; otherwise raise. -/
def matchTok (tok : String) (s : PState) : PRes PyVal :=
  match s.toks with
  | [] => .err (.parseError ("found None instead of " ++ tok)) s
  | t :: rest =>
      if t.la = tok then .ok (evaluate s.st t) { s with toks := rest }
      else .err (.parseError ("found " ++ t.la ++ " instead of " ++ tok)) s

mutual

/-- `MyParser.expr`: parse a Term and a Term_tail, fold the tail values
into the head with XOR (the Python loop over `b[:-1]`). -/
def expr : Nat → PState → Option (PRes Nat)
  | 0, _ => Option.none
  | f + 1, s =>
      if la? s = some "id" ∨ la? s = some "binary" ∨ la? s = some "(" then
        match term f s with
        | Option.none => Option.none
        | some (.err e s1) => some (.err e s1)
        | some (.ok a s1) =>
            match term_tail f s1 with
            | Option.none => Option.none
            | some (.err e s2) => some (.err e s2)
            | some (.ok bs s2) => some (.ok (bs.foldl (· ^^^ ·) a) s2)
      else
        some (.err (.parseError "in expr: id, binary or \x27(\x27 expected") s)

/-- `MyParser.term`: parse a Factor and a Factor_tail, fold with OR. -/
def term : Nat → PState → Option (PRes Nat)
  | 0, _ => Option.none
  | f + 1, s =>
      if la? s = some "id" ∨ la? s = some "binary" ∨ la? s = some "(" then
        match factor f s with
        | Option.none => Option.none
        | some (.err e s1) => some (.err e s1)
        | some (.ok a s1) =>
            match factor_tail f s1 with
            | Option.none => Option.none
            | some (.err e s2) => some (.err e s2)
            | some (.ok bs s2) => some (.ok (bs.foldl (· ||| ·) a) s2)
      else
        some (.err (.parseError "in term: id, binary or \x27(\x27 expected") s)

/-- `MyParser.term_tail`: the values of the `xor`-separated Terms, the
sentinel `None` that ends the Python tuple dropped (callers iterate
`b[:-1]`, so the empty production is the empty list here). -/
def term_tail : Nat → PState → Option (PRes (List Nat))
  | 0, _ => Option.none
  | f + 1, s =>
      if la? s = some "xor" then
        match matchTok "xor" s with
        | .err e s1 => some (.err e s1)
        | .ok _ s1 =>
            match term f s1 with
            | Option.none => Option.none
            | some (.err e s2) => some (.err e s2)
            | some (.ok a s2) =>
                match term_tail f s2 with
                | Option.none => Option.none
                | some (.err e s3) => some (.err e s3)
                | some (.ok bs s3) => some (.ok (a :: bs) s3)
      else if la? s = Option.none ∨ la? s = some ")" ∨ la? s = some "id"
          ∨ la? s = some "print" then
        some (.ok [] s)
      else
        some (.err (.parseError "in term_tail: xor expected") s)

/-- `MyParser.factor`: parse an Operand and an Operand_tail, fold with AND. -/
def factor : Nat → PState → Option (PRes Nat)
  | 0, _ => Option.none
  | f + 1, s =>
      if la? s = some "id" ∨ la? s = some "binary" ∨ la? s = some "(" then
        match operand f s with
        | Option.none => Option.none
        | some (.err e s1) => some (.err e s1)
        | some (.ok a s1) =>
            match operand_tail f s1 with
            | Option.none => Option.none
            | some (.err e s2) => some (.err e s2)
            | some (.ok bs s2) => some (.ok (bs.foldl (· &&& ·) a) s2)
      else
        some (.err (.parseError "in factor: id, binary or \x27(\x27 expected") s)

/-- `MyParser.factor_tail`: the values of the `or`-separated Factors. -/
def factor_tail : Nat → PState → Option (PRes (List Nat))
  | 0, _ => Option.none
  | f + 1, s =>
      if la? s = some "or" then
        match matchTok "or" s with
        | .err e s1 => some (.err e s1)
        | .ok _ s1 =>
            match factor f s1 with
            | Option.none => Option.none
            | some (.err e s2) => some (.err e s2)
            | some (.ok a s2) =>
                match factor_tail f s2 with
                | Option.none => Option.none
                | some (.err e s3) => some (.err e s3)
                | some (.ok bs s3) => some (.ok (a :: bs) s3)
      else if la? s = Option.none ∨ la? s = some ")" ∨ la? s = some "xor"
          ∨ la? s = some "id" ∨ la? s = some "print" then
        some (.ok [] s)
      else
        some (.err (.parseError "in factor_tail: or expected") s)

/-- `MyParser.operand`: parenthesized Expr, identifier (a `None` lookup
raises the undefined-variable `RuntimeError`), or binary literal. -/
def operand : Nat → PState → Option (PRes Nat)
  | 0, _ => Option.none
  | f + 1, s =>
      if la? s = some "id" then
        let var := val? s
        match matchTok "id" s with
        | .err e s1 => some (.err e s1)
        | .ok a s1 =>
            if a = PyVal.none then some (.err (.undefinedVar var) s1)
            else some (.ok a.toNat s1)
      else if la? s = some "binary" then
        match matchTok "binary" s with
        | .err e s1 => some (.err e s1)
        | .ok a s1 => some (.ok a.toNat s1)
      else if la? s = some "(" then
        match matchTok "(" s with
        | .err e s1 => some (.err e s1)
        | .ok _ s1 =>
            match expr f s1 with
            | Option.none => Option.none
            | some (.err e s2) => some (.err e s2)
            | some (.ok a s2) =>
                match matchTok ")" s2 with
                | .err e s3 => some (.err e s3)
                | .ok _ s3 => some (.ok a s3)
      else
        some (.err (.parseError "in operand: id, binary or \x27(\x27 expected") s)

/-- `MyParser.operand_tail`: the values of the `and`-separated Operands
(its syntax-error message really says `or expected`, as in the source). -/
def operand_tail : Nat → PState → Option (PRes (List Nat))
  | 0, _ => Option.none
  | f + 1, s =>
      if la? s = some "and" then
        match matchTok "and" s with
        | .err e s1 => some (.err e s1)
        | .ok _ s1 =>
            match operand f s1 with
            | Option.none => Option.none
            | some (.err e s2) => some (.err e s2)
            | some (.ok a s2) =>
                match operand_tail f s2 with
                | Option.none => Option.none
                | some (.err e s3) => some (.err e s3)
                | some (.ok bs s3) => some (.ok (a :: bs) s3)
      else if la? s = Option.none ∨ la? s = some ")" ∨ la? s = some "xor"
          ∨ la? s = some "or" ∨ la? s = some "id" ∨ la? s = some "print" then
        some (.ok [] s)
      else
        some (.err (.parseError "in operand_tail: or expected") s)

end

/-- `MyParser.stmt`: an assignment stores the evaluated expression under
the captured identifier only after `expr` returns; a print appends the
binary rendering of the evaluated expression to the output. -/
def stmt : Nat → PState → Option (PRes Unit)
  | 0, _ => Option.none
  | f + 1, s =>
      if la? s = some "id" then
        match matchTok "id" s with
        | .err e s1 => some (.err e s1)
        | .ok _ s1 =>
            match matchTok "=" s1 with
            | .err e s2 => some (.err e s2)
            | .ok _ s2 =>
                match expr f s2 with
                | Option.none => Option.none
                | some (.err e s3) => some (.err e s3)
                | some (.ok v s3) =>
                    -- symbol = self.val is captured before the id is consumed
                    some (.ok () { s3 with st := stSet s3.st (val? s) v })
      else if la? s = some "print" then
        match matchTok "print" s with
        | .err e s1 => some (.err e s1)
        | .ok _ s1 =>
            match expr f s1 with
            | Option.none => Option.none
            | some (.err e s2) => some (.err e s2)
            | some (.ok v s2) =>
                some (.ok () { s2 with out := s2.out ++ [fmtB v] })
      else
        some (.err (.parseError "in stmt: id or print expected") s)

/-- `MyParser.stmt_list`: a statement then the rest, or accept at end. -/
def stmt_list : Nat → PState → Option (PRes Unit)
  | 0, _ => Option.none
  | f + 1, s =>
      if la? s = some "id" ∨ la? s = some "print" then
        match stmt f s with
        | Option.none => Option.none
        | some (.err e s1) => some (.err e s1)
        | some (.ok _ s1) => stmt_list f s1
      else if la? s = Option.none then
        some (.ok () s)
      else
        some (.err (.parseError "in stmt_list: id or print expected") s)

/-- One program run: `MyParser()` starts with an empty symbol table and
`parse` enters `stmt_list`; nothing has been printed yet. -/
def runProg (fuel : Nat) (toks : List Tok) : Option (PRes Unit) :=
  stmt_list fuel { toks := toks, st := [], out := [] }

end Runner

/-- Outcome of one parsing procedure of the recognize-only engine of
`parser.py`: it keeps no symbol table and produces no output, so the state
is just the remaining token list (at the raise site for an error). -/
inductive RRes where
  | ok (ts : List Tok)
  | err (e : Err) (ts : List Tok)
deriving DecidableEq, Repr

namespace Recog

/-- Lookahead kind of the recognize-only engine. -/
def rla? (ts : List Tok) : Option String :=
  ts.head?.map Tok.la

/-- `MyParser.match` of `parser.py`: consume the expected kind or raise. -/
def matchTok (tok : String) (ts : List Tok) : RRes :=
  match ts with
  | [] => .err (.parseError ("found None instead of " ++ tok)) []
  | t :: rest =>
      if t.la = tok then .ok rest
      else .err (.parseError ("found " ++ t.la ++ " instead of " ++ tok)) (t :: rest)

mutual

/-- `MyParser.expr` of `parser.py`. -/
def expr : Nat → List Tok → Option RRes
  | 0, _ => Option.none
  | f + 1, ts =>
      if rla? ts = some "id" ∨ rla? ts = some "binary" ∨ rla? ts = some "(" then
        match term f ts with
        | Option.none => Option.none
        | some (.err e ts1) => some (.err e ts1)
        | some (.ok ts1) => term_tail f ts1
      else
        some (.err (.parseError "in expr: id, binary or \x27(\x27 expected") ts)

/-- `MyParser.term` of `parser.py`. -/
def term : Nat → List Tok → Option RRes
  | 0, _ => Option.none
  | f + 1, ts =>
      if rla? ts = some "id" ∨ rla? ts = some "binary" ∨ rla? ts = some "(" then
        match factor f ts with
        | Option.none => Option.none
        | some (.err e ts1) => some (.err e ts1)
        | some (.ok ts1) => factor_tail f ts1
      else
        some (.err (.parseError "in term: id, binary or \x27(\x27 expected") ts)

/-- `MyParser.term_tail` of `parser.py`. -/
def term_tail : Nat → List Tok → Option RRes
  | 0, _ => Option.none
  | f + 1, ts =>
      if rla? ts = some "xor" then
        match matchTok "xor" ts with
        | .err e ts1 => some (.err e ts1)
        | .ok ts1 =>
            match term f ts1 with
            | Option.none => Option.none
            | some (.err e ts2) => some (.err e ts2)
            | some (.ok ts2) => term_tail f ts2
      else if rla? ts = Option.none ∨ rla? ts = some ")" ∨ rla? ts = some "id"
          ∨ rla? ts = some "print" then
        some (.ok ts)
      else
        some (.err (.parseError "in term_tail: xor expected") ts)

/-- `MyParser.factor` of `parser.py`. -/
def factor : Nat → List Tok → Option RRes
  | 0, _ => Option.none
  | f + 1, ts =>
      if rla? ts = some "id" ∨ rla? ts = some "binary" ∨ rla? ts = some "(" then
        match operand f ts with
        | Option.none => Option.none
        | some (.err e ts1) => some (.err e ts1)
        | some (.ok ts1) => operand_tail f ts1
      else
        some (.err (.parseError "in factor: id, binary or \x27(\x27 expected") ts)

/-- `MyParser.factor_tail` of `parser.py`. -/
def factor_tail : Nat → List Tok → Option RRes
  | 0, _ => Option.none
  | f + 1, ts =>
      if rla? ts = some "or" then
        match matchTok "or" ts with
        | .err e ts1 => some (.err e ts1)
        | .ok ts1 =>
            match factor f ts1 with
            | Option.none => Option.none
            | some (.err e ts2) => some (.err e ts2)
            | some (.ok ts2) => factor_tail f ts2
      else if rla? ts = Option.none ∨ rla? ts = some ")" ∨ rla? ts = some "xor"
          ∨ rla? ts = some "id" ∨ rla? ts = some "print" then
        some (.ok ts)
      else
        some (.err (.parseError "in factor_tail: or expected") ts)

/-- `MyParser.operand` of `parser.py`: no symbol table, an identifier is
consumed without being resolved. -/
def operand : Nat → List Tok → Option RRes
  | 0, _ => Option.none
  | f + 1, ts =>
      if rla? ts = some "id" then
        match matchTok "id" ts with
        | .err e ts1 => some (.err e ts1)
        | .ok ts1 => some (.ok ts1)
      else if rla? ts = some "binary" then
        match matchTok "binary" ts with
        | .err e ts1 => some (.err e ts1)
        | .ok ts1 => some (.ok ts1)
      else if rla? ts = some "(" then
        match matchTok "(" ts with
        | .err e ts1 => some (.err e ts1)
        | .ok ts1 =>
            match expr f ts1 with
            | Option.none => Option.none
            | some (.err e ts2) => some (.err e ts2)
            | some (.ok ts2) =>
                match matchTok ")" ts2 with
                | .err e ts3 => some (.err e ts3)
                | .ok ts3 => some (.ok ts3)
      else
        some (.err (.parseError "in operand: id, binary or \x27(\x27 expected") ts)

/-- `MyParser.operand_tail` of `parser.py` (its message reads
`or or \x27?\x27 expected`, as in the source). -/
def operand_tail : Nat → List Tok → Option RRes
  | 0, _ => Option.none
  | f + 1, ts =>
      if rla? ts = some "and" then
        match matchTok "and" ts with
        | .err e ts1 => some (.err e ts1)
        | .ok ts1 =>
            match operand f ts1 with
            | Option.none => Option.none
            | some (.err e ts2) => some (.err e ts2)
            | some (.ok ts2) => operand_tail f ts2
      else if rla? ts = Option.none ∨ rla? ts = some ")" ∨ rla? ts = some "xor"
          ∨ rla? ts = some "or" ∨ rla? ts = some "id" ∨ rla? ts = some "print" then
        some (.ok ts)
      else
        some (.err (.parseError "in operand_tail: or or \x27?\x27 expected") ts)

end

/-- `MyParser.stmt` of `parser.py`: recognize an assignment or a print,
with no symbol-table store and no output. -/
def stmt : Nat → List Tok → Option RRes
  | 0, _ => Option.none
  | f + 1, ts =>
      if rla? ts = some "id" then
        match matchTok "id" ts with
        | .err e ts1 => some (.err e ts1)
        | .ok ts1 =>
            match matchTok "=" ts1 with
            | .err e ts2 => some (.err e ts2)
            | .ok ts2 => expr f ts2
      else if rla? ts = some "print" then
        match matchTok "print" ts with
        | .err e ts1 => some (.err e ts1)
        | .ok ts1 => expr f ts1
      else
        some (.err (.parseError "in stmt: id or print expected") ts)

/-- `MyParser.stmt_list` of `parser.py`. -/
def stmt_list : Nat → List Tok → Option RRes
  | 0, _ => Option.none
  | f + 1, ts =>
      if rla? ts = some "id" ∨ rla? ts = some "print" then
        match stmt f ts with
        | Option.none => Option.none
        | some (.err e ts1) => some (.err e ts1)
        | some (.ok ts1) => stmt_list f ts1
      else if rla? ts = Option.none then
        some (.ok ts)
      else
        some (.err (.parseError "in stmt_list: id or print expected") ts)

end Recog

/-!
Reference syntax and semantics.  The AST mirrors the grammar of the
source docstring one constructor per production, so precedence
(`and` tightest, then `or`, then `xor`) is the nesting of the layers and
parentheses are the explicit `paren` constructor.  The reference evaluator
is a big-integer (`Nat`) bitwise evaluator folding each layer
left-to-right.
-/

mutual

inductive AExpr where
  | mk (t : ATerm) (tt : ATermTail)

inductive ATermTail where
  | nil
  | cons (t : ATerm) (tt : ATermTail)

inductive ATerm where
  | mk (fa : AFactor) (ft : AFactorTail)

inductive AFactorTail where
  | nil
  | cons (fa : AFactor) (ft : AFactorTail)

inductive AFactor where
  | mk (o : AOperand) (ot : AOperandTail)

inductive AOperandTail where
  | nil
  | cons (o : AOperand) (ot : AOperandTail)

inductive AOperand where
  | paren (e : AExpr)
  | avar (x : String)
  | alit (d : String)

end

/-- A statement: assignment or print. -/
inductive AStmt where
  | assign (x : String) (e : AExpr)
  | aprint (e : AExpr)

mutual

/-- Token rendering of an expression. -/
def toksE : AExpr → List Tok
  | .mk t tt => toksT t ++ toksTT tt

/-- Token rendering of an `xor` tail. -/
def toksTT : ATermTail → List Tok
  | .nil => []
  | .cons t tt => Tok.mk "xor" "xor" :: (toksT t ++ toksTT tt)

/-- Token rendering of a term. -/
def toksT : ATerm → List Tok
  | .mk fa ft => toksF fa ++ toksFT ft

/-- Token rendering of an `or` tail. -/
def toksFT : AFactorTail → List Tok
  | .nil => []
  | .cons fa ft => Tok.mk "or" "or" :: (toksF fa ++ toksFT ft)

/-- Token rendering of a factor. -/
def toksF : AFactor → List Tok
  | .mk o ot => toksO o ++ toksOT ot

/-- Token rendering of an `and` tail. -/
def toksOT : AOperandTail → List Tok
  | .nil => []
  | .cons o ot => Tok.mk "and" "and" :: (toksO o ++ toksOT ot)

/-- Token rendering of an operand. -/
def toksO : AOperand → List Tok
  | .paren e => Tok.mk "(" "(" :: (toksE e ++ [Tok.mk ")" ")"])
  | .avar x => [Tok.mk "id" x]
  | .alit d => [Tok.mk "binary" d]

end

/-- Token rendering of a statement. -/
def toksS : AStmt → List Tok
  | .assign x e => Tok.mk "id" x :: Tok.mk "=" "=" :: toksE e
  | .aprint e => Tok.mk "print" "print" :: toksE e

/-- Token rendering of a program. -/
def toksP : List AStmt → List Tok
  | [] => []
  | st :: rest => toksS st ++ toksP rest

mutual

/-- Reference value of an expression: xor-fold of its terms. -/
def evalE : AExpr → List (String × Nat) → Nat
  | .mk t tt, st => (evalTT tt st).foldl (· ^^^ ·) (evalT t st)

/-- Reference values of an `xor` tail. -/
def evalTT : ATermTail → List (String × Nat) → List Nat
  | .nil, _ => []
  | .cons t tt, st => evalT t st :: evalTT tt st

/-- Reference value of a term: or-fold of its factors. -/
def evalT : ATerm → List (String × Nat) → Nat
  | .mk fa ft, st => (evalFT ft st).foldl (· ||| ·) (evalF fa st)

/-- Reference values of an `or` tail. -/
def evalFT : AFactorTail → List (String × Nat) → List Nat
  | .nil, _ => []
  | .cons fa ft, st => evalF fa st :: evalFT ft st

/-- Reference value of a factor: and-fold of its operands. -/
def evalF : AFactor → List (String × Nat) → Nat
  | .mk o ot, st => (evalOT ot st).foldl (· &&& ·) (evalO o st)

/-- Reference values of an `and` tail. -/
def evalOT : AOperandTail → List (String × Nat) → List Nat
  | .nil, _ => []
  | .cons o ot, st => evalO o st :: evalOT ot st

/-- Reference value of an operand (the default for an unbound variable is
never used on well-formed input). -/
def evalO : AOperand → List (String × Nat) → Nat
  | .paren e, st => evalE e st
  | .avar x, st => (stGet st x).getD 0
  | .alit d, _ => binToNat d

end

mutual

/-- Every variable of the expression is bound in the table. -/
def wfE : AExpr → List (String × Nat) → Bool
  | .mk t tt, st => wfT t st && wfTT tt st

def wfTT : ATermTail → List (String × Nat) → Bool
  | .nil, _ => true
  | .cons t tt, st => wfT t st && wfTT tt st

def wfT : ATerm → List (String × Nat) → Bool
  | .mk fa ft, st => wfF fa st && wfFT ft st

def wfFT : AFactorTail → List (String × Nat) → Bool
  | .nil, _ => true
  | .cons fa ft, st => wfF fa st && wfFT ft st

def wfF : AFactor → List (String × Nat) → Bool
  | .mk o ot, st => wfO o st && wfOT ot st

def wfOT : AOperandTail → List (String × Nat) → Bool
  | .nil, _ => true
  | .cons o ot, st => wfO o st && wfOT ot st

def wfO : AOperand → List (String × Nat) → Bool
  | .paren e, st => wfE e st
  | .avar x, st => (stGet st x).isSome
  | .alit _, _ => true

end

mutual

/-- Sufficient fuel for the engine on an expression. -/
def sizeE : AExpr → Nat
  | .mk t tt => 1 + sizeT t + sizeTT tt

def sizeTT : ATermTail → Nat
  | .nil => 1
  | .cons t tt => 1 + sizeT t + sizeTT tt

def sizeT : ATerm → Nat
  | .mk fa ft => 1 + sizeF fa + sizeFT ft

def sizeFT : AFactorTail → Nat
  | .nil => 1
  | .cons fa ft => 1 + sizeF fa + sizeFT ft

def sizeF : AFactor → Nat
  | .mk o ot => 1 + sizeO o + sizeOT ot

def sizeOT : AOperandTail → Nat
  | .nil => 1
  | .cons o ot => 1 + sizeO o + sizeOT ot

def sizeO : AOperand → Nat
  | .paren e => 1 + sizeE e
  | .avar _ => 1
  | .alit _ => 1

end

/-- Sufficient fuel for one statement. -/
def sizeS : AStmt → Nat
  | .assign _ e => 1 + sizeE e
  | .aprint e => 1 + sizeE e

/-- Sufficient fuel for a program. -/
def sizeP : List AStmt → Nat
  | [] => 1
  | st :: rest => 1 + sizeS st + sizeP rest

/-- Reference final symbol table of a program. -/
def refSt : List AStmt → List (String × Nat) → List (String × Nat)
  | [], st => st
  | .assign x e :: rest, st => refSt rest (stSet st x (evalE e st))
  | .aprint _ :: rest, st => refSt rest st

/-- Reference output of a program: one binary-rendered line per print,
each evaluated in the table produced by the assignments before it. -/
def refOut : List AStmt → List (String × Nat) → List String
  | [], _ => []
  | .assign x e :: rest, st => refOut rest (stSet st x (evalE e st))
  | .aprint e :: rest, st => fmtB (evalE e st) :: refOut rest st

/-- Well-formed program: every statement's expression reads only
variables assigned by earlier statements (or present initially). -/
def wfP : List AStmt → List (String × Nat) → Bool
  | [], _ => true
  | .assign x e :: rest, st => wfE e st && wfP rest (stSet st x (evalE e st))
  | .aprint e :: rest, st => wfE e st && wfP rest st

/-!  FOLLOW conditions: what the trailing context may start with so that
each tail procedure takes its ε branch exactly at the rendering boundary. -/

/-- The context after an Expr: `term_tail` may stop here. -/
def okAfterTT : List Tok → Bool
  | [] => true
  | t :: _ => t.la == ")" || t.la == "id" || t.la == "print"

/-- The context after a Term: `factor_tail` may stop here. -/
def okAfterFT : List Tok → Bool
  | [] => true
  | t :: _ => t.la == ")" || t.la == "xor" || t.la == "id" || t.la == "print"

/-- The context after a Factor: `operand_tail` may stop here. -/
def okAfterOT : List Tok → Bool
  | [] => true
  | t :: _ =>
      t.la == ")" || t.la == "xor" || t.la == "or" || t.la == "id" || t.la == "print"

/-- Modelled from the source lexicon in `create_scanner` (both files)
under plex's longest-match, first-listed-wins rule, restricted to a whole
whitespace-delimited word: binary digits beat everything; the operator
texts and the case-insensitive keyword `print` beat the identifier
pattern, and both carry the `plex.TEXT` action, so the token KIND is the
matched text as written (a case variant of `print` yields its own spelling
as kind, not `print`). -/
def classify (w : String) : Tok :=
  if w ≠ "" ∧ w.data.all (fun c => c == '0' || c == '1') then Tok.mk "binary" w
  else if w = "and" ∨ w = "or" ∨ w = "xor" ∨ w = "=" then Tok.mk w w
  else if w.data.map (fun c =>
      if 65 ≤ c.toNat ∧ c.toNat ≤ 90 then c.toNat + 32 else c.toNat)
    = "print".data.map Char.toNat then Tok.mk w w
  else if w = "(" ∨ w = ")" then Tok.mk w w
  else if (match w.data with
      | [] => false
      | c :: cs => c.isAlpha && cs.all (fun d => d.isAlpha || d.isDigit)) then
    Tok.mk "id" w
  else Tok.mk "lexical error" w

/-- Does the evaluating engine's outcome raise the undefined-identifier
`RuntimeError`? -/
def isUV {α : Type} : Option (PRes α) → Bool
  | some (.err (.undefinedVar _) _) => true
  | _ => false

/-- Acceptance shape of a recognize-only outcome: fuel ran out, success
with remaining tokens, or a raise. -/
def rshape : Option RRes → Option (Option (List Tok))
  | Option.none => Option.none
  | some (.ok ts) => some (some ts)
  | some (.err _ _) => some Option.none

/-- Acceptance shape of an evaluating outcome, value and state erased. -/
def eshape {α : Type} : Option (PRes α) → Option (Option (List Tok))
  | Option.none => Option.none
  | some (.ok _ s) => some (some s.toks)
  | some (.err _ _) => some Option.none

/-!  Small facts about the state projections, the symbol table and the
binary rendering. -/

@[simp] theorem la?_mk (ts : List Tok) (st : List (String × Nat)) (out : List String) :
    la? { toks := ts, st := st, out := out } = ts.head?.map Tok.la := rfl

@[simp] theorem val?_mk (ts : List Tok) (st : List (String × Nat)) (out : List String) :
    val? { toks := ts, st := st, out := out } = (ts.head?.map Tok.val).getD "" := rfl

/-- Storing then reading the same key yields the stored value. -/
theorem stGet_stSet_self (st : List (String × Nat)) (x : String) (v : Nat) :
    stGet (stSet st x v) x = some v := by
  induction st with
  | nil => simp [stSet, stGet]
  | cons p rest ih =>
      obtain ⟨k, w⟩ := p
      by_cases h : k = x
      · simp [stSet, stGet, h]
      · simpa [stSet, stGet, h] using ih

/-- Storing one key does not change any other key's binding. -/
theorem stGet_stSet_ne (st : List (String × Nat)) (x y : String) (v : Nat)
    (h : y ≠ x) : stGet (stSet st x v) y = stGet st y := by
  induction st with
  | nil => simp [stSet, stGet, Ne.symm h]
  | cons p rest ih =>
      obtain ⟨k, w⟩ := p
      by_cases hp : k = x
      · subst hp
        simp [stSet, stGet, Ne.symm h]
      · by_cases hy : k = y
        · simp [stSet, stGet, hp, hy, h]
        · simpa [stSet, stGet, hp, hy] using ih

/-- With any fuel bounding `n`, the digit list evaluates back to `n`
under the big-endian binary fold that `binToNat` performs. -/
theorem bitsOfAux_val :
    ∀ f n : Nat, n ≤ f →
      (bitsOfAux f n).foldl (fun a c => 2 * a + (if c = '1' then 1 else 0)) 0 = n := by
  intro f
  induction f with
  | zero => intro n h; interval_cases n; simp [bitsOfAux]
  | succ f ih =>
      intro n h
      by_cases h0 : n = 0
      · simp [bitsOfAux, h0]
      · rw [bitsOfAux, if_neg h0, List.foldl_append,
          ih (n / 2) (by omega)]
        simp only [List.foldl]
        by_cases h1 : n % 2 = 1
        · rw [if_pos h1, if_pos rfl]
          omega
        · rw [if_neg h1, if_neg (by decide)]
          omega

/-- With fuel `0` the table of digits is empty (only reachable for zero). -/
theorem bitsOfAux_zero (f : Nat) : bitsOfAux f 0 = [] := by
  cases f <;> simp [bitsOfAux]

/-- For a nonzero value the digit list begins with `1`: the rendering
has no leading zero. -/
theorem bitsOfAux_head :
    ∀ f n : Nat, n ≤ f → n ≠ 0 → ∃ l, bitsOfAux f n = '1' :: l := by
  intro f
  induction f with
  | zero => intro n h h0; omega
  | succ f ih =>
      intro n h h0
      rw [bitsOfAux, if_neg h0]
      by_cases h1 : n = 1
      · subst h1
        exact ⟨[], by rw [bitsOfAux_zero]; rfl⟩
      · obtain ⟨l, hl⟩ := ih (n / 2) (by omega) (by omega)
        exact ⟨l ++ [if n % 2 = 1 then '1' else '0'], by rw [hl]; simp⟩

/-- The digit list of `n` evaluates back to `n`. -/
theorem bitsOf_val (n : Nat) :
    (bitsOf n).foldl (fun a c => 2 * a + (if c = '1' then 1 else 0)) 0 = n :=
  bitsOfAux_val n n (Nat.le_refl n)

/-- For a nonzero value the digit list begins with `1`. -/
theorem bitsOf_head (n : Nat) (h : n ≠ 0) : ∃ l, bitsOf n = '1' :: l :=
  bitsOfAux_head n n (Nat.le_refl n) h

/-!  FOLLOW conditions: what the trailing context may start with so that
each tail procedure takes its ε branch exactly at the rendering boundary. -/

theorem okAfterTT_props (ts : List Tok) (h : okAfterTT ts = true) :
    ts.head?.map Tok.la ≠ some "xor" ∧
      (ts.head?.map Tok.la = Option.none ∨ ts.head?.map Tok.la = some ")"
        ∨ ts.head?.map Tok.la = some "id" ∨ ts.head?.map Tok.la = some "print") := by
  cases ts with
  | nil => simp
  | cons t ts' =>
      simp only [okAfterTT, Bool.or_eq_true, beq_iff_eq] at h
      simp only [List.head?_cons, Option.map_some']
      rcases h with (h | h) | h <;> rw [h] <;> simp

theorem okAfterFT_props (ts : List Tok) (h : okAfterFT ts = true) :
    ts.head?.map Tok.la ≠ some "or" ∧
      (ts.head?.map Tok.la = Option.none ∨ ts.head?.map Tok.la = some ")"
        ∨ ts.head?.map Tok.la = some "xor" ∨ ts.head?.map Tok.la = some "id"
        ∨ ts.head?.map Tok.la = some "print") := by
  cases ts with
  | nil => simp
  | cons t ts' =>
      simp only [okAfterFT, Bool.or_eq_true, beq_iff_eq] at h
      simp only [List.head?_cons, Option.map_some']
      rcases h with ((h | h) | h) | h <;> rw [h] <;> simp

theorem okAfterOT_props (ts : List Tok) (h : okAfterOT ts = true) :
    ts.head?.map Tok.la ≠ some "and" ∧
      (ts.head?.map Tok.la = Option.none ∨ ts.head?.map Tok.la = some ")"
        ∨ ts.head?.map Tok.la = some "xor" ∨ ts.head?.map Tok.la = some "or"
        ∨ ts.head?.map Tok.la = some "id" ∨ ts.head?.map Tok.la = some "print") := by
  cases ts with
  | nil => simp
  | cons t ts' =>
      simp only [okAfterOT, Bool.or_eq_true, beq_iff_eq] at h
      simp only [List.head?_cons, Option.map_some']
      rcases h with (((h | h) | h) | h) | h <;> rw [h] <;> simp

theorem okAfterTT_to_FT (ts : List Tok) (h : okAfterTT ts = true) :
    okAfterFT ts = true := by
  cases ts with
  | nil => rfl
  | cons t ts' =>
      simp only [okAfterTT, Bool.or_eq_true, beq_iff_eq] at h
      simp only [okAfterFT, Bool.or_eq_true, beq_iff_eq]
      tauto

theorem okAfterFT_to_OT (ts : List Tok) (h : okAfterFT ts = true) :
    okAfterOT ts = true := by
  cases ts with
  | nil => rfl
  | cons t ts' =>
      simp only [okAfterFT, Bool.or_eq_true, beq_iff_eq] at h
      simp only [okAfterOT, Bool.or_eq_true, beq_iff_eq]
      tauto

/-- A rendered `xor` tail starts the context of a `factor_tail` stop. -/
theorem okAfterFT_toksTT (tt : ATermTail) (rest : List Tok)
    (h : okAfterTT rest = true) : okAfterFT (toksTT tt ++ rest) = true := by
  cases tt with
  | nil => simpa [toksTT] using okAfterTT_to_FT rest h
  | cons t tt' => simp [toksTT, okAfterFT]

/-- A rendered `or` tail starts the context of an `operand_tail` stop. -/
theorem okAfterOT_toksFT (ft : AFactorTail) (rest : List Tok)
    (h : okAfterFT rest = true) : okAfterOT (toksFT ft ++ rest) = true := by
  cases ft with
  | nil => simpa [toksFT] using okAfterFT_to_OT rest h
  | cons fa ft' => simp [toksFT, okAfterOT]

/-- A rendered program starts with `id`, `print`, or nothing at all. -/
theorem okAfterTT_toksP (prog : List AStmt) : okAfterTT (toksP prog) = true := by
  cases prog with
  | nil => rfl
  | cons s rest => cases s <;> simp [toksP, toksS, okAfterTT]

/-!  The first token of each rendered nonterminal is in its FIRST set,
in the exact shape of the engine's lookahead tests. -/

theorem laO_first (o : AOperand) (rest : List Tok) (st : List (String × Nat))
    (out : List String) :
    la? { toks := toksO o ++ rest, st := st, out := out } = some "id"
      ∨ la? { toks := toksO o ++ rest, st := st, out := out } = some "binary"
      ∨ la? { toks := toksO o ++ rest, st := st, out := out } = some "(" := by
  cases o <;> simp [toksO, la?]

theorem laF_first (fa : AFactor) (rest : List Tok) (st : List (String × Nat))
    (out : List String) :
    la? { toks := toksF fa ++ rest, st := st, out := out } = some "id"
      ∨ la? { toks := toksF fa ++ rest, st := st, out := out } = some "binary"
      ∨ la? { toks := toksF fa ++ rest, st := st, out := out } = some "(" := by
  cases fa with
  | mk o ot =>
      have := laO_first o (toksOT ot ++ rest) st out
      simpa [toksF, List.append_assoc] using this

theorem laT_first (t : ATerm) (rest : List Tok) (st : List (String × Nat))
    (out : List String) :
    la? { toks := toksT t ++ rest, st := st, out := out } = some "id"
      ∨ la? { toks := toksT t ++ rest, st := st, out := out } = some "binary"
      ∨ la? { toks := toksT t ++ rest, st := st, out := out } = some "(" := by
  cases t with
  | mk fa ft =>
      have := laF_first fa (toksFT ft ++ rest) st out
      simpa [toksT, List.append_assoc] using this

theorem laE_first (e : AExpr) (rest : List Tok) (st : List (String × Nat))
    (out : List String) :
    la? { toks := toksE e ++ rest, st := st, out := out } = some "id"
      ∨ la? { toks := toksE e ++ rest, st := st, out := out } = some "binary"
      ∨ la? { toks := toksE e ++ rest, st := st, out := out } = some "(" := by
  cases e with
  | mk t tt =>
      have := laT_first t (toksTT tt ++ rest) st out
      simpa [toksE, List.append_assoc] using this

/-!  Correctness of the evaluating engine on rendered syntax: each
procedure consumes exactly the rendering of its nonterminal and returns
the reference value, leaving table and output untouched. -/

mutual

theorem expr_run (e : AExpr) :
    ∀ (f : Nat) (rest : List Tok) (st : List (String × Nat)) (out : List String),
      wfE e st = true → sizeE e ≤ f → okAfterTT rest = true →
      Runner.expr f { toks := toksE e ++ rest, st := st, out := out }
        = some (.ok (evalE e st) { toks := rest, st := st, out := out }) := by
  cases e with
  | mk t tt =>
      intro f rest st out hwf hf hok
      cases f with
      | zero => simp [sizeE] at hf
      | succ f =>
          obtain ⟨h1, h2⟩ := by simpa [wfE, Bool.and_eq_true] using hwf
          have hT := term_run t f (toksTT tt ++ rest) st out h1
            (by simp [sizeE] at hf; omega) (okAfterFT_toksTT tt rest hok)
          have hTT := term_tail_run tt f rest st out h2
            (by simp [sizeE] at hf; omega) hok
          rw [show toksE (.mk t tt) ++ rest = toksT t ++ (toksTT tt ++ rest) by
            simp [toksE]]
          simp only [Runner.expr]
          rw [if_pos (laT_first t (toksTT tt ++ rest) st out), hT]
          simp only []
          rw [hTT]
          simp [evalE]

theorem term_run (t : ATerm) :
    ∀ (f : Nat) (rest : List Tok) (st : List (String × Nat)) (out : List String),
      wfT t st = true → sizeT t ≤ f → okAfterFT rest = true →
      Runner.term f { toks := toksT t ++ rest, st := st, out := out }
        = some (.ok (evalT t st) { toks := rest, st := st, out := out }) := by
  cases t with
  | mk fa ft =>
      intro f rest st out hwf hf hok
      cases f with
      | zero => simp [sizeT] at hf
      | succ f =>
          obtain ⟨h1, h2⟩ := by simpa [wfT, Bool.and_eq_true] using hwf
          have hF := factor_run fa f (toksFT ft ++ rest) st out h1
            (by simp [sizeT] at hf; omega) (okAfterOT_toksFT ft rest hok)
          have hFT := factor_tail_run ft f rest st out h2
            (by simp [sizeT] at hf; omega) hok
          rw [show toksT (.mk fa ft) ++ rest = toksF fa ++ (toksFT ft ++ rest) by
            simp [toksT]]
          simp only [Runner.term]
          rw [if_pos (laF_first fa (toksFT ft ++ rest) st out), hF]
          simp only []
          rw [hFT]
          simp [evalT]

theorem term_tail_run (tt : ATermTail) :
    ∀ (f : Nat) (rest : List Tok) (st : List (String × Nat)) (out : List String),
      wfTT tt st = true → sizeTT tt ≤ f → okAfterTT rest = true →
      Runner.term_tail f { toks := toksTT tt ++ rest, st := st, out := out }
        = some (.ok (evalTT tt st) { toks := rest, st := st, out := out }) := by
  cases tt with
  | nil =>
      intro f rest st out hwf hf hok
      cases f with
      | zero => simp [sizeTT] at hf
      | succ f =>
          obtain ⟨hne, hε⟩ := okAfterTT_props rest hok
          simp only [toksTT, List.nil_append, Runner.term_tail]
          rw [if_neg (by simpa [la?] using hne), if_pos (by simpa [la?] using hε)]
          simp [evalTT]
  | cons t tt' =>
      intro f rest st out hwf hf hok
      cases f with
      | zero => simp [sizeTT] at hf
      | succ f =>
          obtain ⟨h1, h2⟩ := by simpa [wfTT, Bool.and_eq_true] using hwf
          have hT := term_run t f (toksTT tt' ++ rest) st out h1
            (by simp [sizeTT] at hf; omega) (okAfterFT_toksTT tt' rest hok)
          have hTT := term_tail_run tt' f rest st out h2
            (by simp [sizeTT] at hf; omega) hok
          simp only [toksTT, List.cons_append, List.append_assoc, Runner.term_tail]
          rw [if_pos (by simp [la?])]
          simp only [Runner.matchTok, Runner.evaluate, List.head?_cons,
            Option.map_some', reduceIte]
          rw [hT]
          simp only []
          rw [hTT]
          simp [evalTT]

theorem factor_run (fa : AFactor) :
    ∀ (f : Nat) (rest : List Tok) (st : List (String × Nat)) (out : List String),
      wfF fa st = true → sizeF fa ≤ f → okAfterOT rest = true →
      Runner.factor f { toks := toksF fa ++ rest, st := st, out := out }
        = some (.ok (evalF fa st) { toks := rest, st := st, out := out }) := by
  cases fa with
  | mk o ot =>
      intro f rest st out hwf hf hok
      cases f with
      | zero => simp [sizeF] at hf
      | succ f =>
          obtain ⟨h1, h2⟩ := by simpa [wfF, Bool.and_eq_true] using hwf
          have hO := operand_run o f (toksOT ot ++ rest) st out h1
            (by simp [sizeF] at hf; omega)
          have hOT := operand_tail_run ot f rest st out h2
            (by simp [sizeF] at hf; omega) hok
          rw [show toksF (.mk o ot) ++ rest = toksO o ++ (toksOT ot ++ rest) by
            simp [toksF]]
          simp only [Runner.factor]
          rw [if_pos (laO_first o (toksOT ot ++ rest) st out), hO]
          simp only []
          rw [hOT]
          simp [evalF]

theorem factor_tail_run (ft : AFactorTail) :
    ∀ (f : Nat) (rest : List Tok) (st : List (String × Nat)) (out : List String),
      wfFT ft st = true → sizeFT ft ≤ f → okAfterFT rest = true →
      Runner.factor_tail f { toks := toksFT ft ++ rest, st := st, out := out }
        = some (.ok (evalFT ft st) { toks := rest, st := st, out := out }) := by
  cases ft with
  | nil =>
      intro f rest st out hwf hf hok
      cases f with
      | zero => simp [sizeFT] at hf
      | succ f =>
          obtain ⟨hne, hε⟩ := okAfterFT_props rest hok
          simp only [toksFT, List.nil_append, Runner.factor_tail]
          rw [if_neg (by simpa [la?] using hne), if_pos (by simpa [la?] using hε)]
          simp [evalFT]
  | cons fa ft' =>
      intro f rest st out hwf hf hok
      cases f with
      | zero => simp [sizeFT] at hf
      | succ f =>
          obtain ⟨h1, h2⟩ := by simpa [wfFT, Bool.and_eq_true] using hwf
          have hF := factor_run fa f (toksFT ft' ++ rest) st out h1
            (by simp [sizeFT] at hf; omega) (okAfterOT_toksFT ft' rest hok)
          have hFT := factor_tail_run ft' f rest st out h2
            (by simp [sizeFT] at hf; omega) hok
          simp only [toksFT, List.cons_append, List.append_assoc, Runner.factor_tail]
          rw [if_pos (by simp [la?])]
          simp only [Runner.matchTok, Runner.evaluate, List.head?_cons,
            Option.map_some', reduceIte]
          rw [hF]
          simp only []
          rw [hFT]
          simp [evalFT]

theorem operand_run (o : AOperand) :
    ∀ (f : Nat) (rest : List Tok) (st : List (String × Nat)) (out : List String),
      wfO o st = true → sizeO o ≤ f →
      Runner.operand f { toks := toksO o ++ rest, st := st, out := out }
        = some (.ok (evalO o st) { toks := rest, st := st, out := out }) := by
  cases o with
  | avar x =>
      intro f rest st out hwf hf
      cases f with
      | zero => simp [sizeO] at hf
      | succ f =>
          obtain ⟨n, hn⟩ := by
            simpa [wfO, Option.isSome_iff_exists] using hwf
          simp [Runner.operand, toksO, la?, val?, Runner.matchTok, Runner.evaluate,
            hn, evalO, PyVal.toNat]
  | alit d =>
      intro f rest st out hwf hf
      cases f with
      | zero => simp [sizeO] at hf
      | succ f =>
          simp [Runner.operand, toksO, la?, val?, Runner.matchTok, Runner.evaluate,
            evalO, PyVal.toNat]
  | paren e =>
      intro f rest st out hwf hf
      cases f with
      | zero => simp [sizeO] at hf
      | succ f =>
          have hwfe : wfE e st = true := by simpa [wfO] using hwf
          have hE := expr_run e f (Tok.mk ")" ")" :: rest) st out hwfe
            (by simp [sizeO] at hf; omega) (by simp [okAfterTT])
          rw [show toksO (.paren e) ++ rest
              = Tok.mk "(" "(" :: (toksE e ++ (Tok.mk ")" ")" :: rest)) by
            simp [toksO]]
          simp only [Runner.operand]
          rw [if_neg (by simp [la?]), if_neg (by simp [la?]), if_pos (by simp [la?])]
          simp only [Runner.matchTok, Runner.evaluate, List.head?_cons,
            Option.map_some', reduceIte]
          rw [hE]
          simp only []
          simp [Runner.matchTok, evalO]

theorem operand_tail_run (ot : AOperandTail) :
    ∀ (f : Nat) (rest : List Tok) (st : List (String × Nat)) (out : List String),
      wfOT ot st = true → sizeOT ot ≤ f → okAfterOT rest = true →
      Runner.operand_tail f { toks := toksOT ot ++ rest, st := st, out := out }
        = some (.ok (evalOT ot st) { toks := rest, st := st, out := out }) := by
  cases ot with
  | nil =>
      intro f rest st out hwf hf hok
      cases f with
      | zero => simp [sizeOT] at hf
      | succ f =>
          obtain ⟨hne, hε⟩ := okAfterOT_props rest hok
          simp only [toksOT, List.nil_append, Runner.operand_tail]
          rw [if_neg (by simpa [la?] using hne), if_pos (by simpa [la?] using hε)]
          simp [evalOT]
  | cons o ot' =>
      intro f rest st out hwf hf hok
      cases f with
      | zero => simp [sizeOT] at hf
      | succ f =>
          obtain ⟨h1, h2⟩ := by simpa [wfOT, Bool.and_eq_true] using hwf
          have hO := operand_run o f (toksOT ot' ++ rest) st out h1
            (by simp [sizeOT] at hf; omega)
          have hOT := operand_tail_run ot' f rest st out h2
            (by simp [sizeOT] at hf; omega) hok
          simp only [toksOT, List.cons_append, List.append_assoc, Runner.operand_tail]
          rw [if_pos (by simp [la?])]
          simp only [Runner.matchTok, Runner.evaluate, List.head?_cons,
            Option.map_some', reduceIte]
          rw [hO]
          simp only []
          rw [hOT]
          simp [evalOT]

end

/-- Round trip: reading the rendered binary text back gives the value. -/
theorem binToNat_fmtB (n : Nat) : binToNat (fmtB n) = n := by
  by_cases h : n = 0
  · subst h; decide
  · rw [fmtB, if_neg h]
    show (String.mk (bitsOf n)).data.foldl _ 0 = n
    simpa using bitsOf_val n

/-- Zero renders as the single digit `0`. -/
theorem fmtB_zero : fmtB 0 = "0" := rfl

/-- A nonzero value renders with leading digit `1` (minimal digits). -/
theorem fmtB_head (n : Nat) (h : n ≠ 0) :
    ∃ l, (fmtB n).data = '1' :: l := by
  rw [fmtB, if_neg h]
  exact bitsOf_head n h

/-- An assignment statement: `match id`, `match =`, evaluate the
expression, then store the value under the captured identifier. -/
theorem stmt_run_assign (x : String) (e : AExpr) (f : Nat) (rest : List Tok)
    (st : List (String × Nat)) (out : List String)
    (hwf : wfE e st = true) (hf : 1 + sizeE e ≤ f) (hok : okAfterTT rest = true) :
    Runner.stmt f
        { toks := Tok.mk "id" x :: Tok.mk "=" "=" :: (toksE e ++ rest),
          st := st, out := out }
      = some (.ok ()
          { toks := rest, st := stSet st x (evalE e st), out := out }) := by
  cases f with
  | zero => omega
  | succ f =>
      have hE := expr_run e f rest st out hwf (by omega) hok
      simp only [Runner.stmt]
      rw [if_pos (by simp [la?])]
      simp only [val?, Runner.matchTok, Runner.evaluate, List.head?_cons,
        Option.map_some', reduceIte]
      rw [hE]
      simp

/-- A print statement: `match print`, evaluate the expression, then append
its binary rendering to the output. -/
theorem stmt_run_print (e : AExpr) (f : Nat) (rest : List Tok)
    (st : List (String × Nat)) (out : List String)
    (hwf : wfE e st = true) (hf : 1 + sizeE e ≤ f) (hok : okAfterTT rest = true) :
    Runner.stmt f
        { toks := Tok.mk "print" "print" :: (toksE e ++ rest),
          st := st, out := out }
      = some (.ok ()
          { toks := rest, st := st, out := out ++ [fmtB (evalE e st)] }) := by
  cases f with
  | zero => omega
  | succ f =>
      have hE := expr_run e f rest st out hwf (by omega) hok
      simp only [Runner.stmt]
      rw [if_neg (by simp [la?]), if_pos (by simp [la?])]
      simp only [val?, Runner.matchTok, Runner.evaluate, List.head?_cons,
        Option.map_some', reduceIte]
      rw [hE]

/-- A rendered well-formed program runs to acceptance with the reference
final table and the reference output appended to what was printed before. -/
theorem stmt_list_run (prog : List AStmt) :
    ∀ (f : Nat) (st : List (String × Nat)) (out : List String),
      wfP prog st = true → sizeP prog ≤ f →
      Runner.stmt_list f { toks := toksP prog, st := st, out := out }
        = some (.ok ()
            { toks := [], st := refSt prog st, out := out ++ refOut prog st }) := by
  induction prog with
  | nil =>
      intro f st out hwf hf
      cases f with
      | zero => simp [sizeP] at hf
      | succ f =>
          simp only [toksP, Runner.stmt_list]
          rw [if_neg (by simp [la?]), if_pos (by simp [la?])]
          simp [refSt, refOut]
  | cons s0 rest' ih =>
      intro f st out hwf hf
      cases f with
      | zero => simp [sizeP] at hf
      | succ f =>
          cases s0 with
          | assign x e =>
              obtain ⟨h1, h2⟩ := by simpa [wfP, Bool.and_eq_true] using hwf
              have hS := stmt_run_assign x e f (toksP rest') st out h1
                (by simp [sizeP, sizeS] at hf; omega) (okAfterTT_toksP rest')
              have hRest := ih f (stSet st x (evalE e st)) out h2
                (by simp [sizeP] at hf; omega)
              simp only [toksP, toksS, List.cons_append, List.append_assoc,
                Runner.stmt_list]
              rw [if_pos (by simp [la?]), hS]
              simp only []
              rw [hRest]
              simp [refSt, refOut]
          | aprint e =>
              obtain ⟨h1, h2⟩ := by simpa [wfP, Bool.and_eq_true] using hwf
              have hS := stmt_run_print e f (toksP rest') st out h1
                (by simp [sizeP, sizeS] at hf; omega) (okAfterTT_toksP rest')
              have hRest := ih f st (out ++ [fmtB (evalE e st)]) h2
                (by simp [sizeP] at hf; omega)
              simp only [toksP, toksS, List.cons_append, List.append_assoc,
                Runner.stmt_list]
              rw [if_pos (by simp [la?]), hS]
              simp only []
              rw [hRest]
              simp [refSt, refOut]

/-!  Frame lemmas: the expression-level procedures never write the symbol
table and never print, whether they return or raise; `matchTok` likewise.
Only `stmt`'s assignment success mutates the table, only `stmt`'s print
success appends output. -/

theorem matchTok_frame (tok : String) (s : PState) :
    ((Runner.matchTok tok s).state).st = s.st
      ∧ ((Runner.matchTok tok s).state).out = s.out := by
  obtain ⟨ts, stt, outt⟩ := s
  cases ts with
  | nil => exact ⟨rfl, rfl⟩
  | cons t r =>
      simp only [Runner.matchTok]
      by_cases h : t.la = tok
      · rw [if_pos h]; exact ⟨rfl, rfl⟩
      · rw [if_neg h]; exact ⟨rfl, rfl⟩

mutual

theorem expr_frame (f : Nat) :
    ∀ (s : PState) (r : PRes Nat), Runner.expr f s = some r →
      r.state.st = s.st ∧ r.state.out = s.out := by
  match f with
  | 0 => intro s r h; simp [Runner.expr] at h
  | g + 1 =>
      intro s r h
      rw [Runner.expr] at h
      split at h
      · cases hT : Runner.term g s with
        | none => rw [hT] at h; simp at h
        | some pr =>
            rw [hT] at h
            cases pr with
            | err e1 s1 =>
                simp only [] at h
                cases h
                exact term_frame g s _ hT
            | ok a s1 =>
                simp only [] at h
                cases hTT : Runner.term_tail g s1 with
                | none => rw [hTT] at h; simp at h
                | some pr2 =>
                    rw [hTT] at h
                    cases pr2 with
                    | err e2 s2 =>
                        simp only [] at h
                        cases h
                        have h1 := term_frame g s _ hT
                        have h2 := term_tail_frame g s1 _ hTT
                        exact ⟨h2.1.trans h1.1, h2.2.trans h1.2⟩
                    | ok bs s2 =>
                        simp only [] at h
                        cases h
                        have h1 := term_frame g s _ hT
                        have h2 := term_tail_frame g s1 _ hTT
                        exact ⟨h2.1.trans h1.1, h2.2.trans h1.2⟩
      · cases h
        exact ⟨rfl, rfl⟩

theorem term_frame (f : Nat) :
    ∀ (s : PState) (r : PRes Nat), Runner.term f s = some r →
      r.state.st = s.st ∧ r.state.out = s.out := by
  match f with
  | 0 => intro s r h; simp [Runner.term] at h
  | g + 1 =>
      intro s r h
      rw [Runner.term] at h
      split at h
      · cases hT : Runner.factor g s with
        | none => rw [hT] at h; simp at h
        | some pr =>
            rw [hT] at h
            cases pr with
            | err e1 s1 =>
                simp only [] at h
                cases h
                exact factor_frame g s _ hT
            | ok a s1 =>
                simp only [] at h
                cases hTT : Runner.factor_tail g s1 with
                | none => rw [hTT] at h; simp at h
                | some pr2 =>
                    rw [hTT] at h
                    cases pr2 with
                    | err e2 s2 =>
                        simp only [] at h
                        cases h
                        have h1 := factor_frame g s _ hT
                        have h2 := factor_tail_frame g s1 _ hTT
                        exact ⟨h2.1.trans h1.1, h2.2.trans h1.2⟩
                    | ok bs s2 =>
                        simp only [] at h
                        cases h
                        have h1 := factor_frame g s _ hT
                        have h2 := factor_tail_frame g s1 _ hTT
                        exact ⟨h2.1.trans h1.1, h2.2.trans h1.2⟩
      · cases h
        exact ⟨rfl, rfl⟩

theorem term_tail_frame (f : Nat) :
    ∀ (s : PState) (r : PRes (List Nat)), Runner.term_tail f s = some r →
      r.state.st = s.st ∧ r.state.out = s.out := by
  match f with
  | 0 => intro s r h; simp [Runner.term_tail] at h
  | g + 1 =>
      intro s r h
      rw [Runner.term_tail] at h
      split at h
      · cases hM : Runner.matchTok "xor" s with
        | err e1 s1 =>
            rw [hM] at h
            simp only [] at h
            cases h
            have := matchTok_frame "xor" s
            rw [hM] at this
            exact this
        | ok v s1 =>
            rw [hM] at h
            simp only [] at h
            have hMf := matchTok_frame "xor" s
            rw [hM] at hMf
            cases hT : Runner.term g s1 with
            | none => rw [hT] at h; simp at h
            | some pr =>
                rw [hT] at h
                cases pr with
                | err e2 s2 =>
                    simp only [] at h
                    cases h
                    have h1 := term_frame g s1 _ hT
                    exact ⟨h1.1.trans hMf.1, h1.2.trans hMf.2⟩
                | ok a s2 =>
                    simp only [] at h
                    cases hTT : Runner.term_tail g s2 with
                    | none => rw [hTT] at h; simp at h
                    | some pr2 =>
                        rw [hTT] at h
                        cases pr2 with
                        | err e3 s3 =>
                            simp only [] at h
                            cases h
                            have h1 := term_frame g s1 _ hT
                            have h2 := term_tail_frame g s2 _ hTT
                            exact ⟨(h2.1.trans h1.1).trans hMf.1,
                              (h2.2.trans h1.2).trans hMf.2⟩
                        | ok bs s3 =>
                            simp only [] at h
                            cases h
                            have h1 := term_frame g s1 _ hT
                            have h2 := term_tail_frame g s2 _ hTT
                            exact ⟨(h2.1.trans h1.1).trans hMf.1,
                              (h2.2.trans h1.2).trans hMf.2⟩
      · split at h
        · cases h; exact ⟨rfl, rfl⟩
        · cases h; exact ⟨rfl, rfl⟩

theorem factor_frame (f : Nat) :
    ∀ (s : PState) (r : PRes Nat), Runner.factor f s = some r →
      r.state.st = s.st ∧ r.state.out = s.out := by
  match f with
  | 0 => intro s r h; simp [Runner.factor] at h
  | g + 1 =>
      intro s r h
      rw [Runner.factor] at h
      split at h
      · cases hT : Runner.operand g s with
        | none => rw [hT] at h; simp at h
        | some pr =>
            rw [hT] at h
            cases pr with
            | err e1 s1 =>
                simp only [] at h
                cases h
                exact operand_frame g s _ hT
            | ok a s1 =>
                simp only [] at h
                cases hTT : Runner.operand_tail g s1 with
                | none => rw [hTT] at h; simp at h
                | some pr2 =>
                    rw [hTT] at h
                    cases pr2 with
                    | err e2 s2 =>
                        simp only [] at h
                        cases h
                        have h1 := operand_frame g s _ hT
                        have h2 := operand_tail_frame g s1 _ hTT
                        exact ⟨h2.1.trans h1.1, h2.2.trans h1.2⟩
                    | ok bs s2 =>
                        simp only [] at h
                        cases h
                        have h1 := operand_frame g s _ hT
                        have h2 := operand_tail_frame g s1 _ hTT
                        exact ⟨h2.1.trans h1.1, h2.2.trans h1.2⟩
      · cases h
        exact ⟨rfl, rfl⟩

theorem factor_tail_frame (f : Nat) :
    ∀ (s : PState) (r : PRes (List Nat)), Runner.factor_tail f s = some r →
      r.state.st = s.st ∧ r.state.out = s.out := by
  match f with
  | 0 => intro s r h; simp [Runner.factor_tail] at h
  | g + 1 =>
      intro s r h
      rw [Runner.factor_tail] at h
      split at h
      · cases hM : Runner.matchTok "or" s with
        | err e1 s1 =>
            rw [hM] at h
            simp only [] at h
            cases h
            have := matchTok_frame "or" s
            rw [hM] at this
            exact this
        | ok v s1 =>
            rw [hM] at h
            simp only [] at h
            have hMf := matchTok_frame "or" s
            rw [hM] at hMf
            cases hT : Runner.factor g s1 with
            | none => rw [hT] at h; simp at h
            | some pr =>
                rw [hT] at h
                cases pr with
                | err e2 s2 =>
                    simp only [] at h
                    cases h
                    have h1 := factor_frame g s1 _ hT
                    exact ⟨h1.1.trans hMf.1, h1.2.trans hMf.2⟩
                | ok a s2 =>
                    simp only [] at h
                    cases hTT : Runner.factor_tail g s2 with
                    | none => rw [hTT] at h; simp at h
                    | some pr2 =>
                        rw [hTT] at h
                        cases pr2 with
                        | err e3 s3 =>
                            simp only [] at h
                            cases h
                            have h1 := factor_frame g s1 _ hT
                            have h2 := factor_tail_frame g s2 _ hTT
                            exact ⟨(h2.1.trans h1.1).trans hMf.1,
                              (h2.2.trans h1.2).trans hMf.2⟩
                        | ok bs s3 =>
                            simp only [] at h
                            cases h
                            have h1 := factor_frame g s1 _ hT
                            have h2 := factor_tail_frame g s2 _ hTT
                            exact ⟨(h2.1.trans h1.1).trans hMf.1,
                              (h2.2.trans h1.2).trans hMf.2⟩
      · split at h
        · cases h; exact ⟨rfl, rfl⟩
        · cases h; exact ⟨rfl, rfl⟩

theorem operand_frame (f : Nat) :
    ∀ (s : PState) (r : PRes Nat), Runner.operand f s = some r →
      r.state.st = s.st ∧ r.state.out = s.out := by
  match f with
  | 0 => intro s r h; simp [Runner.operand] at h
  | g + 1 =>
      intro s r h
      rw [Runner.operand] at h
      split at h
      · -- id branch
        cases hM : Runner.matchTok "id" s with
        | err e1 s1 =>
            rw [hM] at h
            simp only [] at h
            cases h
            have := matchTok_frame "id" s
            rw [hM] at this
            exact this
        | ok v s1 =>
            rw [hM] at h
            simp only [] at h
            have hMf := matchTok_frame "id" s
            rw [hM] at hMf
            split at h
            · cases h; exact hMf
            · cases h; exact hMf
      · split at h
        · -- binary branch
          cases hM : Runner.matchTok "binary" s with
          | err e1 s1 =>
              rw [hM] at h
              simp only [] at h
              cases h
              have := matchTok_frame "binary" s
              rw [hM] at this
              exact this
          | ok v s1 =>
              rw [hM] at h
              simp only [] at h
              cases h
              have := matchTok_frame "binary" s
              rw [hM] at this
              exact this
        · split at h
          · -- paren branch
            cases hM : Runner.matchTok "(" s with
            | err e1 s1 =>
                rw [hM] at h
                simp only [] at h
                cases h
                have := matchTok_frame "(" s
                rw [hM] at this
                exact this
            | ok v s1 =>
                rw [hM] at h
                simp only [] at h
                have hMf := matchTok_frame "(" s
                rw [hM] at hMf
                cases hE : Runner.expr g s1 with
                | none => rw [hE] at h; simp at h
                | some pr =>
                    rw [hE] at h
                    cases pr with
                    | err e2 s2 =>
                        simp only [] at h
                        cases h
                        have h1 := expr_frame g s1 _ hE
                        exact ⟨h1.1.trans hMf.1, h1.2.trans hMf.2⟩
                    | ok a s2 =>
                        simp only [] at h
                        have h1 := expr_frame g s1 _ hE
                        cases hM2 : Runner.matchTok ")" s2 with
                        | err e3 s3 =>
                            rw [hM2] at h
                            simp only [] at h
                            cases h
                            have h2 := matchTok_frame ")" s2
                            rw [hM2] at h2
                            exact ⟨(h2.1.trans h1.1).trans hMf.1,
                              (h2.2.trans h1.2).trans hMf.2⟩
                        | ok w s3 =>
                            rw [hM2] at h
                            simp only [] at h
                            cases h
                            have h2 := matchTok_frame ")" s2
                            rw [hM2] at h2
                            exact ⟨(h2.1.trans h1.1).trans hMf.1,
                              (h2.2.trans h1.2).trans hMf.2⟩
          · cases h
            exact ⟨rfl, rfl⟩

theorem operand_tail_frame (f : Nat) :
    ∀ (s : PState) (r : PRes (List Nat)), Runner.operand_tail f s = some r →
      r.state.st = s.st ∧ r.state.out = s.out := by
  match f with
  | 0 => intro s r h; simp [Runner.operand_tail] at h
  | g + 1 =>
      intro s r h
      rw [Runner.operand_tail] at h
      split at h
      · cases hM : Runner.matchTok "and" s with
        | err e1 s1 =>
            rw [hM] at h
            simp only [] at h
            cases h
            have := matchTok_frame "and" s
            rw [hM] at this
            exact this
        | ok v s1 =>
            rw [hM] at h
            simp only [] at h
            have hMf := matchTok_frame "and" s
            rw [hM] at hMf
            cases hT : Runner.operand g s1 with
            | none => rw [hT] at h; simp at h
            | some pr =>
                rw [hT] at h
                cases pr with
                | err e2 s2 =>
                    simp only [] at h
                    cases h
                    have h1 := operand_frame g s1 _ hT
                    exact ⟨h1.1.trans hMf.1, h1.2.trans hMf.2⟩
                | ok a s2 =>
                    simp only [] at h
                    cases hTT : Runner.operand_tail g s2 with
                    | none => rw [hTT] at h; simp at h
                    | some pr2 =>
                        rw [hTT] at h
                        cases pr2 with
                        | err e3 s3 =>
                            simp only [] at h
                            cases h
                            have h1 := operand_frame g s1 _ hT
                            have h2 := operand_tail_frame g s2 _ hTT
                            exact ⟨(h2.1.trans h1.1).trans hMf.1,
                              (h2.2.trans h1.2).trans hMf.2⟩
                        | ok bs s3 =>
                            simp only [] at h
                            cases h
                            have h1 := operand_frame g s1 _ hT
                            have h2 := operand_tail_frame g s2 _ hTT
                            exact ⟨(h2.1.trans h1.1).trans hMf.1,
                              (h2.2.trans h1.2).trans hMf.2⟩
      · split at h
        · cases h; exact ⟨rfl, rfl⟩
        · cases h; exact ⟨rfl, rfl⟩

end

/-- If a statement raises, the symbol table and the output it leaves are
exactly the ones it started from: in particular an assignment whose
right-hand side fails stores nothing. -/
theorem stmt_err_frame (f : Nat) (s : PState) (e : Err) (s' : PState)
    (h : Runner.stmt f s = some (.err e s')) : s'.st = s.st ∧ s'.out = s.out := by
  match f with
  | 0 => simp [Runner.stmt] at h
  | g + 1 =>
      rw [Runner.stmt] at h
      split at h
      · cases hM : Runner.matchTok "id" s with
        | err e1 s1 =>
            rw [hM] at h
            simp only [] at h
            cases h
            have := matchTok_frame "id" s
            rw [hM] at this
            exact this
        | ok v s1 =>
            rw [hM] at h
            simp only [] at h
            have hMf := matchTok_frame "id" s
            rw [hM] at hMf
            cases hM2 : Runner.matchTok "=" s1 with
            | err e2 s2 =>
                rw [hM2] at h
                simp only [] at h
                cases h
                have h2 := matchTok_frame "=" s1
                rw [hM2] at h2
                exact ⟨h2.1.trans hMf.1, h2.2.trans hMf.2⟩
            | ok w s2 =>
                rw [hM2] at h
                simp only [] at h
                have h2 := matchTok_frame "=" s1
                rw [hM2] at h2
                cases hE : Runner.expr g s2 with
                | none => rw [hE] at h; simp at h
                | some pr =>
                    rw [hE] at h
                    cases pr with
                    | err e3 s3 =>
                        simp only [] at h
                        cases h
                        have h3 := expr_frame g s2 _ hE
                        exact ⟨(h3.1.trans h2.1).trans hMf.1,
                          (h3.2.trans h2.2).trans hMf.2⟩
                    | ok a s3 => simp at h
      · split at h
        · cases hM : Runner.matchTok "print" s with
          | err e1 s1 =>
              rw [hM] at h
              simp only [] at h
              cases h
              have := matchTok_frame "print" s
              rw [hM] at this
              exact this
          | ok v s1 =>
              rw [hM] at h
              simp only [] at h
              have hMf := matchTok_frame "print" s
              rw [hM] at hMf
              cases hE : Runner.expr g s1 with
              | none => rw [hE] at h; simp at h
              | some pr =>
                  rw [hE] at h
                  cases pr with
                  | err e2 s2 =>
                      simp only [] at h
                      cases h
                      have h1 := expr_frame g s1 _ hE
                      exact ⟨h1.1.trans hMf.1, h1.2.trans hMf.2⟩
                  | ok a s2 => simp at h
        · cases h
          exact ⟨rfl, rfl⟩

/-- A print statement never touches the symbol table, raise or return. -/
theorem stmt_print_frame (f : Nat) (s : PState) (r : PRes Unit)
    (hla : la? s = some "print") (h : Runner.stmt f s = some r) :
    r.state.st = s.st := by
  match f with
  | 0 => simp [Runner.stmt] at h
  | g + 1 =>
      rw [Runner.stmt] at h
      rw [if_neg (by rw [hla]; simp), if_pos hla] at h
      cases hM : Runner.matchTok "print" s with
      | err e1 s1 =>
          rw [hM] at h
          simp only [] at h
          cases h
          have := matchTok_frame "print" s
          rw [hM] at this
          exact this.1
      | ok v s1 =>
          rw [hM] at h
          simp only [] at h
          have hMf := matchTok_frame "print" s
          rw [hM] at hMf
          cases hE : Runner.expr g s1 with
          | none => rw [hE] at h; simp at h
          | some pr =>
              rw [hE] at h
              cases pr with
              | err e2 s2 =>
                  simp only [] at h
                  cases h
                  exact (expr_frame g s1 _ hE).1.trans hMf.1
              | ok a s2 =>
                  simp only [] at h
                  cases h
                  exact (expr_frame g s1 _ hE).1.trans hMf.1

/-!  Consumption lemmas: a procedure's left-behind token remainder is a
suffix of the tokens it started from — parsing only consumes from the
front and never resynchronizes. -/

theorem matchTok_suffix (tok : String) (s : PState) :
    ((Runner.matchTok tok s).state).toks <:+ s.toks := by
  obtain ⟨ts, stt, outt⟩ := s
  cases ts with
  | nil => exact List.suffix_refl _
  | cons t ts' =>
      simp only [Runner.matchTok]
      by_cases h : t.la = tok
      · rw [if_pos h]; exact List.suffix_cons t ts'
      · rw [if_neg h]; exact List.suffix_refl _

mutual

theorem expr_suffix (f : Nat) :
    ∀ (s : PState) (r : PRes Nat), Runner.expr f s = some r →
      r.state.toks <:+ s.toks := by
  match f with
  | 0 => intro s r h; simp [Runner.expr] at h
  | g + 1 =>
      intro s r h
      rw [Runner.expr] at h
      split at h
      · cases hT : Runner.term g s with
        | none => rw [hT] at h; simp at h
        | some pr =>
            rw [hT] at h
            cases pr with
            | err e1 s1 =>
                simp only [] at h
                cases h
                exact term_suffix g s _ hT
            | ok a s1 =>
                simp only [] at h
                cases hTT : Runner.term_tail g s1 with
                | none => rw [hTT] at h; simp at h
                | some pr2 =>
                    rw [hTT] at h
                    cases pr2 with
                    | err e2 s2 =>
                        simp only [] at h
                        cases h
                        exact (term_tail_suffix g s1 _ hTT).trans
                          (term_suffix g s _ hT)
                    | ok bs s2 =>
                        simp only [] at h
                        cases h
                        exact (term_tail_suffix g s1 _ hTT).trans
                          (term_suffix g s _ hT)
      · cases h
        exact List.suffix_refl _

theorem term_suffix (f : Nat) :
    ∀ (s : PState) (r : PRes Nat), Runner.term f s = some r →
      r.state.toks <:+ s.toks := by
  match f with
  | 0 => intro s r h; simp [Runner.term] at h
  | g + 1 =>
      intro s r h
      rw [Runner.term] at h
      split at h
      · cases hT : Runner.factor g s with
        | none => rw [hT] at h; simp at h
        | some pr =>
            rw [hT] at h
            cases pr with
            | err e1 s1 =>
                simp only [] at h
                cases h
                exact factor_suffix g s _ hT
            | ok a s1 =>
                simp only [] at h
                cases hTT : Runner.factor_tail g s1 with
                | none => rw [hTT] at h; simp at h
                | some pr2 =>
                    rw [hTT] at h
                    cases pr2 with
                    | err e2 s2 =>
                        simp only [] at h
                        cases h
                        exact (factor_tail_suffix g s1 _ hTT).trans
                          (factor_suffix g s _ hT)
                    | ok bs s2 =>
                        simp only [] at h
                        cases h
                        exact (factor_tail_suffix g s1 _ hTT).trans
                          (factor_suffix g s _ hT)
      · cases h
        exact List.suffix_refl _

theorem term_tail_suffix (f : Nat) :
    ∀ (s : PState) (r : PRes (List Nat)), Runner.term_tail f s = some r →
      r.state.toks <:+ s.toks := by
  match f with
  | 0 => intro s r h; simp [Runner.term_tail] at h
  | g + 1 =>
      intro s r h
      rw [Runner.term_tail] at h
      split at h
      · cases hM : Runner.matchTok "xor" s with
        | err e1 s1 =>
            rw [hM] at h
            simp only [] at h
            cases h
            have := matchTok_suffix "xor" s
            rw [hM] at this
            exact this
        | ok v s1 =>
            rw [hM] at h
            simp only [] at h
            have hMs := matchTok_suffix "xor" s
            rw [hM] at hMs
            cases hT : Runner.term g s1 with
            | none => rw [hT] at h; simp at h
            | some pr =>
                rw [hT] at h
                cases pr with
                | err e2 s2 =>
                    simp only [] at h
                    cases h
                    exact (term_suffix g s1 _ hT).trans hMs
                | ok a s2 =>
                    simp only [] at h
                    cases hTT : Runner.term_tail g s2 with
                    | none => rw [hTT] at h; simp at h
                    | some pr2 =>
                        rw [hTT] at h
                        cases pr2 with
                        | err e3 s3 =>
                            simp only [] at h
                            cases h
                            exact ((term_tail_suffix g s2 _ hTT).trans
                              (term_suffix g s1 _ hT)).trans hMs
                        | ok bs s3 =>
                            simp only [] at h
                            cases h
                            exact ((term_tail_suffix g s2 _ hTT).trans
                              (term_suffix g s1 _ hT)).trans hMs
      · split at h
        · cases h; exact List.suffix_refl _
        · cases h; exact List.suffix_refl _

theorem factor_suffix (f : Nat) :
    ∀ (s : PState) (r : PRes Nat), Runner.factor f s = some r →
      r.state.toks <:+ s.toks := by
  match f with
  | 0 => intro s r h; simp [Runner.factor] at h
  | g + 1 =>
      intro s r h
      rw [Runner.factor] at h
      split at h
      · cases hT : Runner.operand g s with
        | none => rw [hT] at h; simp at h
        | some pr =>
            rw [hT] at h
            cases pr with
            | err e1 s1 =>
                simp only [] at h
                cases h
                exact operand_suffix g s _ hT
            | ok a s1 =>
                simp only [] at h
                cases hTT : Runner.operand_tail g s1 with
                | none => rw [hTT] at h; simp at h
                | some pr2 =>
                    rw [hTT] at h
                    cases pr2 with
                    | err e2 s2 =>
                        simp only [] at h
                        cases h
                        exact (operand_tail_suffix g s1 _ hTT).trans
                          (operand_suffix g s _ hT)
                    | ok bs s2 =>
                        simp only [] at h
                        cases h
                        exact (operand_tail_suffix g s1 _ hTT).trans
                          (operand_suffix g s _ hT)
      · cases h
        exact List.suffix_refl _

theorem factor_tail_suffix (f : Nat) :
    ∀ (s : PState) (r : PRes (List Nat)), Runner.factor_tail f s = some r →
      r.state.toks <:+ s.toks := by
  match f with
  | 0 => intro s r h; simp [Runner.factor_tail] at h
  | g + 1 =>
      intro s r h
      rw [Runner.factor_tail] at h
      split at h
      · cases hM : Runner.matchTok "or" s with
        | err e1 s1 =>
            rw [hM] at h
            simp only [] at h
            cases h
            have := matchTok_suffix "or" s
            rw [hM] at this
            exact this
        | ok v s1 =>
            rw [hM] at h
            simp only [] at h
            have hMs := matchTok_suffix "or" s
            rw [hM] at hMs
            cases hT : Runner.factor g s1 with
            | none => rw [hT] at h; simp at h
            | some pr =>
                rw [hT] at h
                cases pr with
                | err e2 s2 =>
                    simp only [] at h
                    cases h
                    exact (factor_suffix g s1 _ hT).trans hMs
                | ok a s2 =>
                    simp only [] at h
                    cases hTT : Runner.factor_tail g s2 with
                    | none => rw [hTT] at h; simp at h
                    | some pr2 =>
                        rw [hTT] at h
                        cases pr2 with
                        | err e3 s3 =>
                            simp only [] at h
                            cases h
                            exact ((factor_tail_suffix g s2 _ hTT).trans
                              (factor_suffix g s1 _ hT)).trans hMs
                        | ok bs s3 =>
                            simp only [] at h
                            cases h
                            exact ((factor_tail_suffix g s2 _ hTT).trans
                              (factor_suffix g s1 _ hT)).trans hMs
      · split at h
        · cases h; exact List.suffix_refl _
        · cases h; exact List.suffix_refl _

theorem operand_suffix (f : Nat) :
    ∀ (s : PState) (r : PRes Nat), Runner.operand f s = some r →
      r.state.toks <:+ s.toks := by
  match f with
  | 0 => intro s r h; simp [Runner.operand] at h
  | g + 1 =>
      intro s r h
      rw [Runner.operand] at h
      split at h
      · cases hM : Runner.matchTok "id" s with
        | err e1 s1 =>
            rw [hM] at h
            simp only [] at h
            cases h
            have := matchTok_suffix "id" s
            rw [hM] at this
            exact this
        | ok v s1 =>
            rw [hM] at h
            simp only [] at h
            have hMs := matchTok_suffix "id" s
            rw [hM] at hMs
            split at h
            · cases h; exact hMs
            · cases h; exact hMs
      · split at h
        · cases hM : Runner.matchTok "binary" s with
          | err e1 s1 =>
              rw [hM] at h
              simp only [] at h
              cases h
              have := matchTok_suffix "binary" s
              rw [hM] at this
              exact this
          | ok v s1 =>
              rw [hM] at h
              simp only [] at h
              cases h
              have := matchTok_suffix "binary" s
              rw [hM] at this
              exact this
        · split at h
          · cases hM : Runner.matchTok "(" s with
            | err e1 s1 =>
                rw [hM] at h
                simp only [] at h
                cases h
                have := matchTok_suffix "(" s
                rw [hM] at this
                exact this
            | ok v s1 =>
                rw [hM] at h
                simp only [] at h
                have hMs := matchTok_suffix "(" s
                rw [hM] at hMs
                cases hE : Runner.expr g s1 with
                | none => rw [hE] at h; simp at h
                | some pr =>
                    rw [hE] at h
                    cases pr with
                    | err e2 s2 =>
                        simp only [] at h
                        cases h
                        exact (expr_suffix g s1 _ hE).trans hMs
                    | ok a s2 =>
                        simp only [] at h
                        have h1 := expr_suffix g s1 _ hE
                        cases hM2 : Runner.matchTok ")" s2 with
                        | err e3 s3 =>
                            rw [hM2] at h
                            simp only [] at h
                            cases h
                            have h2 := matchTok_suffix ")" s2
                            rw [hM2] at h2
                            exact (h2.trans h1).trans hMs
                        | ok w s3 =>
                            rw [hM2] at h
                            simp only [] at h
                            cases h
                            have h2 := matchTok_suffix ")" s2
                            rw [hM2] at h2
                            exact (h2.trans h1).trans hMs
          · cases h
            exact List.suffix_refl _

theorem operand_tail_suffix (f : Nat) :
    ∀ (s : PState) (r : PRes (List Nat)), Runner.operand_tail f s = some r →
      r.state.toks <:+ s.toks := by
  match f with
  | 0 => intro s r h; simp [Runner.operand_tail] at h
  | g + 1 =>
      intro s r h
      rw [Runner.operand_tail] at h
      split at h
      · cases hM : Runner.matchTok "and" s with
        | err e1 s1 =>
            rw [hM] at h
            simp only [] at h
            cases h
            have := matchTok_suffix "and" s
            rw [hM] at this
            exact this
        | ok v s1 =>
            rw [hM] at h
            simp only [] at h
            have hMs := matchTok_suffix "and" s
            rw [hM] at hMs
            cases hT : Runner.operand g s1 with
            | none => rw [hT] at h; simp at h
            | some pr =>
                rw [hT] at h
                cases pr with
                | err e2 s2 =>
                    simp only [] at h
                    cases h
                    exact (operand_suffix g s1 _ hT).trans hMs
                | ok a s2 =>
                    simp only [] at h
                    cases hTT : Runner.operand_tail g s2 with
                    | none => rw [hTT] at h; simp at h
                    | some pr2 =>
                        rw [hTT] at h
                        cases pr2 with
                        | err e3 s3 =>
                            simp only [] at h
                            cases h
                            exact ((operand_tail_suffix g s2 _ hTT).trans
                              (operand_suffix g s1 _ hT)).trans hMs
                        | ok bs s3 =>
                            simp only [] at h
                            cases h
                            exact ((operand_tail_suffix g s2 _ hTT).trans
                              (operand_suffix g s1 _ hT)).trans hMs
      · split at h
        · cases h; exact List.suffix_refl _
        · cases h; exact List.suffix_refl _

end

theorem stmt_suffix (f : Nat) :
    ∀ (s : PState) (r : PRes Unit), Runner.stmt f s = some r →
      r.state.toks <:+ s.toks := by
  match f with
  | 0 => intro s r h; simp [Runner.stmt] at h
  | g + 1 =>
      intro s r h
      rw [Runner.stmt] at h
      split at h
      · cases hM : Runner.matchTok "id" s with
        | err e1 s1 =>
            rw [hM] at h
            simp only [] at h
            cases h
            have := matchTok_suffix "id" s
            rw [hM] at this
            exact this
        | ok v s1 =>
            rw [hM] at h
            simp only [] at h
            have hMs := matchTok_suffix "id" s
            rw [hM] at hMs
            cases hM2 : Runner.matchTok "=" s1 with
            | err e2 s2 =>
                rw [hM2] at h
                simp only [] at h
                cases h
                have h2 := matchTok_suffix "=" s1
                rw [hM2] at h2
                exact h2.trans hMs
            | ok w s2 =>
                rw [hM2] at h
                simp only [] at h
                have h2 := matchTok_suffix "=" s1
                rw [hM2] at h2
                cases hE : Runner.expr g s2 with
                | none => rw [hE] at h; simp at h
                | some pr =>
                    rw [hE] at h
                    cases pr with
                    | err e3 s3 =>
                        simp only [] at h
                        cases h
                        exact ((expr_suffix g s2 _ hE).trans h2).trans hMs
                    | ok a s3 =>
                        simp only [] at h
                        cases h
                        exact ((expr_suffix g s2 _ hE).trans h2).trans hMs
      · split at h
        · cases hM : Runner.matchTok "print" s with
          | err e1 s1 =>
              rw [hM] at h
              simp only [] at h
              cases h
              have := matchTok_suffix "print" s
              rw [hM] at this
              exact this
          | ok v s1 =>
              rw [hM] at h
              simp only [] at h
              have hMs := matchTok_suffix "print" s
              rw [hM] at hMs
              cases hE : Runner.expr g s1 with
              | none => rw [hE] at h; simp at h
              | some pr =>
                  rw [hE] at h
                  cases pr with
                  | err e2 s2 =>
                      simp only [] at h
                      cases h
                      exact (expr_suffix g s1 _ hE).trans hMs
                  | ok a s2 =>
                      simp only [] at h
                      cases h
                      exact (expr_suffix g s1 _ hE).trans hMs
        · cases h
          exact List.suffix_refl _

theorem stmt_list_suffix (f : Nat) :
    ∀ (s : PState) (r : PRes Unit), Runner.stmt_list f s = some r →
      r.state.toks <:+ s.toks := by
  match f with
  | 0 => intro s r h; simp [Runner.stmt_list] at h
  | g + 1 =>
      intro s r h
      rw [Runner.stmt_list] at h
      split at h
      · cases hS : Runner.stmt g s with
        | none => rw [hS] at h; simp at h
        | some pr =>
            rw [hS] at h
            cases pr with
            | err e1 s1 =>
                simp only [] at h
                cases h
                exact stmt_suffix g s _ hS
            | ok u s1 =>
                simp only [] at h
                exact (stmt_list_suffix g s1 r h).trans (stmt_suffix g s _ hS)
      · split at h
        · cases h; exact List.suffix_refl _
        · cases h; exact List.suffix_refl _

/-!  Extension lemmas: a run that ends (returning or raising) while tokens
remain unread behaves identically when the input stream is extended past
them — the engine never looks beyond its one-token lookahead. -/

theorem suffix_ne_nil {α : Type} {l1 l2 : List α} (h : l1 <:+ l2) (h1 : l1 ≠ []) :
    l2 ≠ [] := by
  intro h2
  subst h2
  simp only [List.suffix_nil] at h
  exact h1 h

theorem la?_some_ne_nil {s : PState} {l : String} (h : la? s = some l) :
    s.toks ≠ [] := by
  obtain ⟨ts, stt, outt⟩ := s
  cases ts with
  | nil => simp [la?] at h
  | cons t ts' => simp

theorem la?_append_ne (ts extra : List Tok) (st st' : List (String × Nat))
    (out out' : List String) (h : ts ≠ []) :
    la? { toks := ts ++ extra, st := st, out := out }
      = la? { toks := ts, st := st', out := out' } := by
  cases ts with
  | nil => exact absurd rfl h
  | cons t ts' => rfl

theorem val?_append_ne (ts extra : List Tok) (st st' : List (String × Nat))
    (out out' : List String) (h : ts ≠ []) :
    val? { toks := ts ++ extra, st := st, out := out }
      = val? { toks := ts, st := st', out := out' } := by
  cases ts with
  | nil => exact absurd rfl h
  | cons t ts' => rfl

theorem matchTok_append (tok : String) (s : PState) (extra : List Tok)
    (r : PRes PyVal) (h : Runner.matchTok tok s = r) (hne : r.state.toks ≠ []) :
    Runner.matchTok tok { toks := s.toks ++ extra, st := s.st, out := s.out }
      = r.appendToks extra := by
  obtain ⟨ts, stt, outt⟩ := s
  cases ts with
  | nil =>
      subst h
      exact absurd rfl hne
  | cons t ts' =>
      subst h
      simp only [Runner.matchTok] at hne ⊢
      by_cases hla : t.la = tok
      · simp [Runner.matchTok, hla, PRes.appendToks]
      · simp [Runner.matchTok, hla, PRes.appendToks]

mutual

theorem expr_append (f : Nat) :
    ∀ (s : PState) (extra : List Tok) (r : PRes Nat),
      Runner.expr f s = some r → r.state.toks ≠ [] →
      Runner.expr f { toks := s.toks ++ extra, st := s.st, out := s.out }
        = some (r.appendToks extra) := by
  match f with
  | 0 => intro s extra r h hne; simp [Runner.expr] at h
  | g + 1 =>
      intro s extra r h hne
      have hsne : s.toks ≠ [] := suffix_ne_nil (expr_suffix (g + 1) s r h) hne
      rw [Runner.expr] at h
      rw [Runner.expr]
      by_cases hc : la? s = some "id" ∨ la? s = some "binary" ∨ la? s = some "("
      · rw [if_pos hc] at h
        rw [if_pos (by
          rw [la?_append_ne s.toks extra s.st s.st s.out s.out hsne]
          exact hc)]
        cases hT : Runner.term g s with
        | none => rw [hT] at h; simp at h
        | some pr =>
            rw [hT] at h
            cases pr with
            | err e1 s1 =>
                simp only [] at h
                cases h
                rw [term_append g s extra (.err e1 s1) hT hne]
                simp [PRes.appendToks]
            | ok a s1 =>
                simp only [] at h
                cases hTT : Runner.term_tail g s1 with
                | none => rw [hTT] at h; simp at h
                | some pr2 =>
                    rw [hTT] at h
                    cases pr2 with
                    | err e2 s2 =>
                        simp only [] at h
                        cases h
                        have hs1 : s1.toks ≠ [] :=
                          suffix_ne_nil (term_tail_suffix g s1 _ hTT) hne
                        rw [term_append g s extra (.ok a s1) hT hs1]
                        simp only [PRes.appendToks]
                        rw [term_tail_append g s1 extra (.err e2 s2) hTT hne]
                        simp [PRes.appendToks]
                    | ok bs s2 =>
                        simp only [] at h
                        cases h
                        have hs1 : s1.toks ≠ [] :=
                          suffix_ne_nil (term_tail_suffix g s1 _ hTT) hne
                        rw [term_append g s extra (.ok a s1) hT hs1]
                        simp only [PRes.appendToks]
                        rw [term_tail_append g s1 extra (.ok bs s2) hTT hne]
                        simp [PRes.appendToks]
      · rw [if_neg hc] at h
        cases h
        rw [if_neg (by
          rw [la?_append_ne s.toks extra s.st s.st s.out s.out hsne]
          exact hc)]
        simp [PRes.appendToks]

theorem term_append (f : Nat) :
    ∀ (s : PState) (extra : List Tok) (r : PRes Nat),
      Runner.term f s = some r → r.state.toks ≠ [] →
      Runner.term f { toks := s.toks ++ extra, st := s.st, out := s.out }
        = some (r.appendToks extra) := by
  match f with
  | 0 => intro s extra r h hne; simp [Runner.term] at h
  | g + 1 =>
      intro s extra r h hne
      have hsne : s.toks ≠ [] := suffix_ne_nil (term_suffix (g + 1) s r h) hne
      rw [Runner.term] at h
      rw [Runner.term]
      by_cases hc : la? s = some "id" ∨ la? s = some "binary" ∨ la? s = some "("
      · rw [if_pos hc] at h
        rw [if_pos (by
          rw [la?_append_ne s.toks extra s.st s.st s.out s.out hsne]
          exact hc)]
        cases hT : Runner.factor g s with
        | none => rw [hT] at h; simp at h
        | some pr =>
            rw [hT] at h
            cases pr with
            | err e1 s1 =>
                simp only [] at h
                cases h
                rw [factor_append g s extra (.err e1 s1) hT hne]
                simp [PRes.appendToks]
            | ok a s1 =>
                simp only [] at h
                cases hTT : Runner.factor_tail g s1 with
                | none => rw [hTT] at h; simp at h
                | some pr2 =>
                    rw [hTT] at h
                    cases pr2 with
                    | err e2 s2 =>
                        simp only [] at h
                        cases h
                        have hs1 : s1.toks ≠ [] :=
                          suffix_ne_nil (factor_tail_suffix g s1 _ hTT) hne
                        rw [factor_append g s extra (.ok a s1) hT hs1]
                        simp only [PRes.appendToks]
                        rw [factor_tail_append g s1 extra (.err e2 s2) hTT hne]
                        simp [PRes.appendToks]
                    | ok bs s2 =>
                        simp only [] at h
                        cases h
                        have hs1 : s1.toks ≠ [] :=
                          suffix_ne_nil (factor_tail_suffix g s1 _ hTT) hne
                        rw [factor_append g s extra (.ok a s1) hT hs1]
                        simp only [PRes.appendToks]
                        rw [factor_tail_append g s1 extra (.ok bs s2) hTT hne]
                        simp [PRes.appendToks]
      · rw [if_neg hc] at h
        cases h
        rw [if_neg (by
          rw [la?_append_ne s.toks extra s.st s.st s.out s.out hsne]
          exact hc)]
        simp [PRes.appendToks]

theorem term_tail_append (f : Nat) :
    ∀ (s : PState) (extra : List Tok) (r : PRes (List Nat)),
      Runner.term_tail f s = some r → r.state.toks ≠ [] →
      Runner.term_tail f { toks := s.toks ++ extra, st := s.st, out := s.out }
        = some (r.appendToks extra) := by
  match f with
  | 0 => intro s extra r h hne; simp [Runner.term_tail] at h
  | g + 1 =>
      intro s extra r h hne
      have hsne : s.toks ≠ [] :=
        suffix_ne_nil (term_tail_suffix (g + 1) s r h) hne
      rw [Runner.term_tail] at h
      rw [Runner.term_tail]
      by_cases hc : la? s = some "xor"
      · rw [if_pos hc] at h
        rw [if_pos (by
          rw [la?_append_ne s.toks extra s.st s.st s.out s.out hsne]
          exact hc)]
        cases hM : Runner.matchTok "xor" s with
        | err e1 s1 =>
            rw [hM] at h
            simp only [] at h
            cases h
            rw [matchTok_append "xor" s extra (.err e1 s1) hM hne]
            simp [PRes.appendToks]
        | ok v s1 =>
            rw [hM] at h
            simp only [] at h
            have hs1r : s1.toks <:+ s.toks := by
              have := matchTok_suffix "xor" s
              rw [hM] at this
              exact this
            cases hT : Runner.term g s1 with
            | none => rw [hT] at h; simp at h
            | some pr =>
                rw [hT] at h
                cases pr with
                | err e2 s2 =>
                    simp only [] at h
                    cases h
                    have hs1 : s1.toks ≠ [] :=
                      suffix_ne_nil (term_suffix g s1 _ hT) hne
                    rw [matchTok_append "xor" s extra (.ok v s1) hM hs1]
                    simp only [PRes.appendToks]
                    rw [term_append g s1 extra (.err e2 s2) hT hne]
                    simp [PRes.appendToks]
                | ok a s2 =>
                    simp only [] at h
                    cases hTT : Runner.term_tail g s2 with
                    | none => rw [hTT] at h; simp at h
                    | some pr2 =>
                        rw [hTT] at h
                        cases pr2 with
                        | err e3 s3 =>
                            simp only [] at h
                            cases h
                            have hs2 : s2.toks ≠ [] :=
                              suffix_ne_nil (term_tail_suffix g s2 _ hTT) hne
                            have hs1 : s1.toks ≠ [] :=
                              suffix_ne_nil (term_suffix g s1 _ hT) hs2
                            rw [matchTok_append "xor" s extra (.ok v s1) hM hs1]
                            simp only [PRes.appendToks]
                            rw [term_append g s1 extra (.ok a s2) hT hs2]
                            simp only [PRes.appendToks]
                            rw [term_tail_append g s2 extra (.err e3 s3) hTT hne]
                            simp [PRes.appendToks]
                        | ok bs s3 =>
                            simp only [] at h
                            cases h
                            have hs2 : s2.toks ≠ [] :=
                              suffix_ne_nil (term_tail_suffix g s2 _ hTT) hne
                            have hs1 : s1.toks ≠ [] :=
                              suffix_ne_nil (term_suffix g s1 _ hT) hs2
                            rw [matchTok_append "xor" s extra (.ok v s1) hM hs1]
                            simp only [PRes.appendToks]
                            rw [term_append g s1 extra (.ok a s2) hT hs2]
                            simp only [PRes.appendToks]
                            rw [term_tail_append g s2 extra (.ok bs s3) hTT hne]
                            simp [PRes.appendToks]
      · rw [if_neg hc] at h
        rw [if_neg (by
          rw [la?_append_ne s.toks extra s.st s.st s.out s.out hsne]
          exact hc)]
        by_cases hc2 : la? s = Option.none ∨ la? s = some ")" ∨ la? s = some "id"
            ∨ la? s = some "print"
        · rw [if_pos hc2] at h
          cases h
          rw [if_pos (by
            rw [la?_append_ne s.toks extra s.st s.st s.out s.out hsne]
            exact hc2)]
          simp [PRes.appendToks]
        · rw [if_neg hc2] at h
          cases h
          rw [if_neg (by
            rw [la?_append_ne s.toks extra s.st s.st s.out s.out hsne]
            exact hc2)]
          simp [PRes.appendToks]

theorem factor_append (f : Nat) :
    ∀ (s : PState) (extra : List Tok) (r : PRes Nat),
      Runner.factor f s = some r → r.state.toks ≠ [] →
      Runner.factor f { toks := s.toks ++ extra, st := s.st, out := s.out }
        = some (r.appendToks extra) := by
  match f with
  | 0 => intro s extra r h hne; simp [Runner.factor] at h
  | g + 1 =>
      intro s extra r h hne
      have hsne : s.toks ≠ [] := suffix_ne_nil (factor_suffix (g + 1) s r h) hne
      rw [Runner.factor] at h
      rw [Runner.factor]
      by_cases hc : la? s = some "id" ∨ la? s = some "binary" ∨ la? s = some "("
      · rw [if_pos hc] at h
        rw [if_pos (by
          rw [la?_append_ne s.toks extra s.st s.st s.out s.out hsne]
          exact hc)]
        cases hT : Runner.operand g s with
        | none => rw [hT] at h; simp at h
        | some pr =>
            rw [hT] at h
            cases pr with
            | err e1 s1 =>
                simp only [] at h
                cases h
                rw [operand_append g s extra (.err e1 s1) hT hne]
                simp [PRes.appendToks]
            | ok a s1 =>
                simp only [] at h
                cases hTT : Runner.operand_tail g s1 with
                | none => rw [hTT] at h; simp at h
                | some pr2 =>
                    rw [hTT] at h
                    cases pr2 with
                    | err e2 s2 =>
                        simp only [] at h
                        cases h
                        have hs1 : s1.toks ≠ [] :=
                          suffix_ne_nil (operand_tail_suffix g s1 _ hTT) hne
                        rw [operand_append g s extra (.ok a s1) hT hs1]
                        simp only [PRes.appendToks]
                        rw [operand_tail_append g s1 extra (.err e2 s2) hTT hne]
                        simp [PRes.appendToks]
                    | ok bs s2 =>
                        simp only [] at h
                        cases h
                        have hs1 : s1.toks ≠ [] :=
                          suffix_ne_nil (operand_tail_suffix g s1 _ hTT) hne
                        rw [operand_append g s extra (.ok a s1) hT hs1]
                        simp only [PRes.appendToks]
                        rw [operand_tail_append g s1 extra (.ok bs s2) hTT hne]
                        simp [PRes.appendToks]
      · rw [if_neg hc] at h
        cases h
        rw [if_neg (by
          rw [la?_append_ne s.toks extra s.st s.st s.out s.out hsne]
          exact hc)]
        simp [PRes.appendToks]

theorem factor_tail_append (f : Nat) :
    ∀ (s : PState) (extra : List Tok) (r : PRes (List Nat)),
      Runner.factor_tail f s = some r → r.state.toks ≠ [] →
      Runner.factor_tail f { toks := s.toks ++ extra, st := s.st, out := s.out }
        = some (r.appendToks extra) := by
  match f with
  | 0 => intro s extra r h hne; simp [Runner.factor_tail] at h
  | g + 1 =>
      intro s extra r h hne
      have hsne : s.toks ≠ [] :=
        suffix_ne_nil (factor_tail_suffix (g + 1) s r h) hne
      rw [Runner.factor_tail] at h
      rw [Runner.factor_tail]
      by_cases hc : la? s = some "or"
      · rw [if_pos hc] at h
        rw [if_pos (by
          rw [la?_append_ne s.toks extra s.st s.st s.out s.out hsne]
          exact hc)]
        cases hM : Runner.matchTok "or" s with
        | err e1 s1 =>
            rw [hM] at h
            simp only [] at h
            cases h
            rw [matchTok_append "or" s extra (.err e1 s1) hM hne]
            simp [PRes.appendToks]
        | ok v s1 =>
            rw [hM] at h
            simp only [] at h
            cases hT : Runner.factor g s1 with
            | none => rw [hT] at h; simp at h
            | some pr =>
                rw [hT] at h
                cases pr with
                | err e2 s2 =>
                    simp only [] at h
                    cases h
                    have hs1 : s1.toks ≠ [] :=
                      suffix_ne_nil (factor_suffix g s1 _ hT) hne
                    rw [matchTok_append "or" s extra (.ok v s1) hM hs1]
                    simp only [PRes.appendToks]
                    rw [factor_append g s1 extra (.err e2 s2) hT hne]
                    simp [PRes.appendToks]
                | ok a s2 =>
                    simp only [] at h
                    cases hTT : Runner.factor_tail g s2 with
                    | none => rw [hTT] at h; simp at h
                    | some pr2 =>
                        rw [hTT] at h
                        cases pr2 with
                        | err e3 s3 =>
                            simp only [] at h
                            cases h
                            have hs2 : s2.toks ≠ [] :=
                              suffix_ne_nil (factor_tail_suffix g s2 _ hTT) hne
                            have hs1 : s1.toks ≠ [] :=
                              suffix_ne_nil (factor_suffix g s1 _ hT) hs2
                            rw [matchTok_append "or" s extra (.ok v s1) hM hs1]
                            simp only [PRes.appendToks]
                            rw [factor_append g s1 extra (.ok a s2) hT hs2]
                            simp only [PRes.appendToks]
                            rw [factor_tail_append g s2 extra (.err e3 s3) hTT hne]
                            simp [PRes.appendToks]
                        | ok bs s3 =>
                            simp only [] at h
                            cases h
                            have hs2 : s2.toks ≠ [] :=
                              suffix_ne_nil (factor_tail_suffix g s2 _ hTT) hne
                            have hs1 : s1.toks ≠ [] :=
                              suffix_ne_nil (factor_suffix g s1 _ hT) hs2
                            rw [matchTok_append "or" s extra (.ok v s1) hM hs1]
                            simp only [PRes.appendToks]
                            rw [factor_append g s1 extra (.ok a s2) hT hs2]
                            simp only [PRes.appendToks]
                            rw [factor_tail_append g s2 extra (.ok bs s3) hTT hne]
                            simp [PRes.appendToks]
      · rw [if_neg hc] at h
        rw [if_neg (by
          rw [la?_append_ne s.toks extra s.st s.st s.out s.out hsne]
          exact hc)]
        by_cases hc2 : la? s = Option.none ∨ la? s = some ")" ∨ la? s = some "xor"
            ∨ la? s = some "id" ∨ la? s = some "print"
        · rw [if_pos hc2] at h
          cases h
          rw [if_pos (by
            rw [la?_append_ne s.toks extra s.st s.st s.out s.out hsne]
            exact hc2)]
          simp [PRes.appendToks]
        · rw [if_neg hc2] at h
          cases h
          rw [if_neg (by
            rw [la?_append_ne s.toks extra s.st s.st s.out s.out hsne]
            exact hc2)]
          simp [PRes.appendToks]

theorem operand_append (f : Nat) :
    ∀ (s : PState) (extra : List Tok) (r : PRes Nat),
      Runner.operand f s = some r → r.state.toks ≠ [] →
      Runner.operand f { toks := s.toks ++ extra, st := s.st, out := s.out }
        = some (r.appendToks extra) := by
  match f with
  | 0 => intro s extra r h hne; simp [Runner.operand] at h
  | g + 1 =>
      intro s extra r h hne
      have hsne : s.toks ≠ [] := suffix_ne_nil (operand_suffix (g + 1) s r h) hne
      rw [Runner.operand] at h
      rw [Runner.operand]
      by_cases hc : la? s = some "id"
      · rw [if_pos hc] at h
        rw [if_pos (by
          rw [la?_append_ne s.toks extra s.st s.st s.out s.out hsne]
          exact hc)]
        cases hM : Runner.matchTok "id" s with
        | err e1 s1 =>
            rw [hM] at h
            simp only [] at h
            cases h
            rw [matchTok_append "id" s extra (.err e1 s1) hM hne]
            simp [PRes.appendToks]
        | ok v s1 =>
            rw [hM] at h
            simp only [] at h
            by_cases hv : v = PyVal.none
            · rw [if_pos hv] at h
              cases h
              rw [matchTok_append "id" s extra (.ok v s1) hM hne]
              simp only [PRes.appendToks]
              rw [if_pos hv,
                val?_append_ne s.toks extra s.st s.st s.out s.out hsne]
            · rw [if_neg hv] at h
              cases h
              rw [matchTok_append "id" s extra (.ok v s1) hM hne]
              simp only [PRes.appendToks]
              rw [if_neg hv]
      · rw [if_neg hc] at h
        rw [if_neg (by
          rw [la?_append_ne s.toks extra s.st s.st s.out s.out hsne]
          exact hc)]
        by_cases hc2 : la? s = some "binary"
        · rw [if_pos hc2] at h
          rw [if_pos (by
            rw [la?_append_ne s.toks extra s.st s.st s.out s.out hsne]
            exact hc2)]
          cases hM : Runner.matchTok "binary" s with
          | err e1 s1 =>
              rw [hM] at h
              simp only [] at h
              cases h
              rw [matchTok_append "binary" s extra (.err e1 s1) hM hne]
              simp [PRes.appendToks]
          | ok v s1 =>
              rw [hM] at h
              simp only [] at h
              cases h
              rw [matchTok_append "binary" s extra (.ok v s1) hM hne]
              simp [PRes.appendToks]
        · rw [if_neg hc2] at h
          rw [if_neg (by
            rw [la?_append_ne s.toks extra s.st s.st s.out s.out hsne]
            exact hc2)]
          by_cases hc3 : la? s = some "("
          · rw [if_pos hc3] at h
            rw [if_pos (by
              rw [la?_append_ne s.toks extra s.st s.st s.out s.out hsne]
              exact hc3)]
            cases hM : Runner.matchTok "(" s with
            | err e1 s1 =>
                rw [hM] at h
                simp only [] at h
                cases h
                rw [matchTok_append "(" s extra (.err e1 s1) hM hne]
                simp [PRes.appendToks]
            | ok v s1 =>
                rw [hM] at h
                simp only [] at h
                cases hE : Runner.expr g s1 with
                | none => rw [hE] at h; simp at h
                | some pr =>
                    rw [hE] at h
                    cases pr with
                    | err e2 s2 =>
                        simp only [] at h
                        cases h
                        have hs1 : s1.toks ≠ [] :=
                          suffix_ne_nil (expr_suffix g s1 _ hE) hne
                        rw [matchTok_append "(" s extra (.ok v s1) hM hs1]
                        simp only [PRes.appendToks]
                        rw [expr_append g s1 extra (.err e2 s2) hE hne]
                        simp [PRes.appendToks]
                    | ok a s2 =>
                        simp only [] at h
                        cases hM2 : Runner.matchTok ")" s2 with
                        | err e3 s3 =>
                            rw [hM2] at h
                            simp only [] at h
                            cases h
                            have hs2 : s2.toks ≠ [] := by
                              have := matchTok_suffix ")" s2
                              rw [hM2] at this
                              exact suffix_ne_nil this hne
                            have hs1 : s1.toks ≠ [] :=
                              suffix_ne_nil (expr_suffix g s1 _ hE) hs2
                            rw [matchTok_append "(" s extra (.ok v s1) hM hs1]
                            simp only [PRes.appendToks]
                            rw [expr_append g s1 extra (.ok a s2) hE hs2]
                            simp only [PRes.appendToks]
                            rw [matchTok_append ")" s2 extra (.err e3 s3) hM2 hne]
                            simp [PRes.appendToks]
                        | ok w s3 =>
                            rw [hM2] at h
                            simp only [] at h
                            cases h
                            have hs2 : s2.toks ≠ [] := by
                              have := matchTok_suffix ")" s2
                              rw [hM2] at this
                              exact suffix_ne_nil this hne
                            have hs1 : s1.toks ≠ [] :=
                              suffix_ne_nil (expr_suffix g s1 _ hE) hs2
                            rw [matchTok_append "(" s extra (.ok v s1) hM hs1]
                            simp only [PRes.appendToks]
                            rw [expr_append g s1 extra (.ok a s2) hE hs2]
                            simp only [PRes.appendToks]
                            rw [matchTok_append ")" s2 extra (.ok w s3) hM2 hne]
                            simp [PRes.appendToks]
          · rw [if_neg hc3] at h
            cases h
            rw [if_neg (by
              rw [la?_append_ne s.toks extra s.st s.st s.out s.out hsne]
              exact hc3)]
            simp [PRes.appendToks]

theorem operand_tail_append (f : Nat) :
    ∀ (s : PState) (extra : List Tok) (r : PRes (List Nat)),
      Runner.operand_tail f s = some r → r.state.toks ≠ [] →
      Runner.operand_tail f { toks := s.toks ++ extra, st := s.st, out := s.out }
        = some (r.appendToks extra) := by
  match f with
  | 0 => intro s extra r h hne; simp [Runner.operand_tail] at h
  | g + 1 =>
      intro s extra r h hne
      have hsne : s.toks ≠ [] :=
        suffix_ne_nil (operand_tail_suffix (g + 1) s r h) hne
      rw [Runner.operand_tail] at h
      rw [Runner.operand_tail]
      by_cases hc : la? s = some "and"
      · rw [if_pos hc] at h
        rw [if_pos (by
          rw [la?_append_ne s.toks extra s.st s.st s.out s.out hsne]
          exact hc)]
        cases hM : Runner.matchTok "and" s with
        | err e1 s1 =>
            rw [hM] at h
            simp only [] at h
            cases h
            rw [matchTok_append "and" s extra (.err e1 s1) hM hne]
            simp [PRes.appendToks]
        | ok v s1 =>
            rw [hM] at h
            simp only [] at h
            cases hT : Runner.operand g s1 with
            | none => rw [hT] at h; simp at h
            | some pr =>
                rw [hT] at h
                cases pr with
                | err e2 s2 =>
                    simp only [] at h
                    cases h
                    have hs1 : s1.toks ≠ [] :=
                      suffix_ne_nil (operand_suffix g s1 _ hT) hne
                    rw [matchTok_append "and" s extra (.ok v s1) hM hs1]
                    simp only [PRes.appendToks]
                    rw [operand_append g s1 extra (.err e2 s2) hT hne]
                    simp [PRes.appendToks]
                | ok a s2 =>
                    simp only [] at h
                    cases hTT : Runner.operand_tail g s2 with
                    | none => rw [hTT] at h; simp at h
                    | some pr2 =>
                        rw [hTT] at h
                        cases pr2 with
                        | err e3 s3 =>
                            simp only [] at h
                            cases h
                            have hs2 : s2.toks ≠ [] :=
                              suffix_ne_nil (operand_tail_suffix g s2 _ hTT) hne
                            have hs1 : s1.toks ≠ [] :=
                              suffix_ne_nil (operand_suffix g s1 _ hT) hs2
                            rw [matchTok_append "and" s extra (.ok v s1) hM hs1]
                            simp only [PRes.appendToks]
                            rw [operand_append g s1 extra (.ok a s2) hT hs2]
                            simp only [PRes.appendToks]
                            rw [operand_tail_append g s2 extra (.err e3 s3) hTT hne]
                            simp [PRes.appendToks]
                        | ok bs s3 =>
                            simp only [] at h
                            cases h
                            have hs2 : s2.toks ≠ [] :=
                              suffix_ne_nil (operand_tail_suffix g s2 _ hTT) hne
                            have hs1 : s1.toks ≠ [] :=
                              suffix_ne_nil (operand_suffix g s1 _ hT) hs2
                            rw [matchTok_append "and" s extra (.ok v s1) hM hs1]
                            simp only [PRes.appendToks]
                            rw [operand_append g s1 extra (.ok a s2) hT hs2]
                            simp only [PRes.appendToks]
                            rw [operand_tail_append g s2 extra (.ok bs s3) hTT hne]
                            simp [PRes.appendToks]
      · rw [if_neg hc] at h
        rw [if_neg (by
          rw [la?_append_ne s.toks extra s.st s.st s.out s.out hsne]
          exact hc)]
        by_cases hc2 : la? s = Option.none ∨ la? s = some ")" ∨ la? s = some "xor"
            ∨ la? s = some "or" ∨ la? s = some "id" ∨ la? s = some "print"
        · rw [if_pos hc2] at h
          cases h
          rw [if_pos (by
            rw [la?_append_ne s.toks extra s.st s.st s.out s.out hsne]
            exact hc2)]
          simp [PRes.appendToks]
        · rw [if_neg hc2] at h
          cases h
          rw [if_neg (by
            rw [la?_append_ne s.toks extra s.st s.st s.out s.out hsne]
            exact hc2)]
          simp [PRes.appendToks]

end

theorem stmt_append (f : Nat) :
    ∀ (s : PState) (extra : List Tok) (r : PRes Unit),
      Runner.stmt f s = some r → r.state.toks ≠ [] →
      Runner.stmt f { toks := s.toks ++ extra, st := s.st, out := s.out }
        = some (r.appendToks extra) := by
  match f with
  | 0 => intro s extra r h hne; simp [Runner.stmt] at h
  | g + 1 =>
      intro s extra r h hne
      have hsne : s.toks ≠ [] := suffix_ne_nil (stmt_suffix (g + 1) s r h) hne
      rw [Runner.stmt] at h
      rw [Runner.stmt]
      by_cases hc : la? s = some "id"
      · rw [if_pos hc] at h
        rw [if_pos (by
          rw [la?_append_ne s.toks extra s.st s.st s.out s.out hsne]
          exact hc)]
        cases hM : Runner.matchTok "id" s with
        | err e1 s1 =>
            rw [hM] at h
            simp only [] at h
            cases h
            rw [matchTok_append "id" s extra (.err e1 s1) hM hne]
            simp [PRes.appendToks]
        | ok v s1 =>
            rw [hM] at h
            simp only [] at h
            cases hM2 : Runner.matchTok "=" s1 with
            | err e2 s2 =>
                rw [hM2] at h
                simp only [] at h
                cases h
                have hs1 : s1.toks ≠ [] := by
                  have := matchTok_suffix "=" s1
                  rw [hM2] at this
                  exact suffix_ne_nil this hne
                rw [matchTok_append "id" s extra (.ok v s1) hM hs1]
                simp only [PRes.appendToks]
                rw [matchTok_append "=" s1 extra (.err e2 s2) hM2 hne]
                simp [PRes.appendToks]
            | ok w s2 =>
                rw [hM2] at h
                simp only [] at h
                cases hE : Runner.expr g s2 with
                | none => rw [hE] at h; simp at h
                | some pr =>
                    rw [hE] at h
                    cases pr with
                    | err e3 s3 =>
                        simp only [] at h
                        cases h
                        have hs2 : s2.toks ≠ [] :=
                          suffix_ne_nil (expr_suffix g s2 _ hE) hne
                        have hs1 : s1.toks ≠ [] := by
                          have := matchTok_suffix "=" s1
                          rw [hM2] at this
                          exact suffix_ne_nil this hs2
                        rw [matchTok_append "id" s extra (.ok v s1) hM hs1]
                        simp only [PRes.appendToks]
                        rw [matchTok_append "=" s1 extra (.ok w s2) hM2 hs2]
                        simp only [PRes.appendToks]
                        rw [expr_append g s2 extra (.err e3 s3) hE hne]
                        simp [PRes.appendToks]
                    | ok a s3 =>
                        simp only [] at h
                        cases h
                        have hs2 : s2.toks ≠ [] :=
                          suffix_ne_nil (expr_suffix g s2 _ hE) hne
                        have hs1 : s1.toks ≠ [] := by
                          have := matchTok_suffix "=" s1
                          rw [hM2] at this
                          exact suffix_ne_nil this hs2
                        rw [matchTok_append "id" s extra (.ok v s1) hM hs1]
                        simp only [PRes.appendToks]
                        rw [matchTok_append "=" s1 extra (.ok w s2) hM2 hs2]
                        simp only [PRes.appendToks]
                        rw [expr_append g s2 extra (.ok a s3) hE hne]
                        simp only [PRes.appendToks]
                        rw [val?_append_ne s.toks extra s.st s.st s.out s.out hsne]
      · rw [if_neg hc] at h
        rw [if_neg (by
          rw [la?_append_ne s.toks extra s.st s.st s.out s.out hsne]
          exact hc)]
        by_cases hc2 : la? s = some "print"
        · rw [if_pos hc2] at h
          rw [if_pos (by
            rw [la?_append_ne s.toks extra s.st s.st s.out s.out hsne]
            exact hc2)]
          cases hM : Runner.matchTok "print" s with
          | err e1 s1 =>
              rw [hM] at h
              simp only [] at h
              cases h
              rw [matchTok_append "print" s extra (.err e1 s1) hM hne]
              simp [PRes.appendToks]
          | ok v s1 =>
              rw [hM] at h
              simp only [] at h
              cases hE : Runner.expr g s1 with
              | none => rw [hE] at h; simp at h
              | some pr =>
                  rw [hE] at h
                  cases pr with
                  | err e2 s2 =>
                      simp only [] at h
                      cases h
                      have hs1 : s1.toks ≠ [] :=
                        suffix_ne_nil (expr_suffix g s1 _ hE) hne
                      rw [matchTok_append "print" s extra (.ok v s1) hM hs1]
                      simp only [PRes.appendToks]
                      rw [expr_append g s1 extra (.err e2 s2) hE hne]
                      simp [PRes.appendToks]
                  | ok a s2 =>
                      simp only [] at h
                      cases h
                      have hs1 : s1.toks ≠ [] :=
                        suffix_ne_nil (expr_suffix g s1 _ hE) hne
                      rw [matchTok_append "print" s extra (.ok v s1) hM hs1]
                      simp only [PRes.appendToks]
                      rw [expr_append g s1 extra (.ok a s2) hE hne]
                      simp [PRes.appendToks]
        · rw [if_neg hc2] at h
          cases h
          rw [if_neg (by
            rw [la?_append_ne s.toks extra s.st s.st s.out s.out hsne]
            exact hc2)]
          simp [PRes.appendToks]

theorem stmt_list_append (f : Nat) :
    ∀ (s : PState) (extra : List Tok) (r : PRes Unit),
      Runner.stmt_list f s = some r → r.state.toks ≠ [] →
      Runner.stmt_list f { toks := s.toks ++ extra, st := s.st, out := s.out }
        = some (r.appendToks extra) := by
  match f with
  | 0 => intro s extra r h hne; simp [Runner.stmt_list] at h
  | g + 1 =>
      intro s extra r h hne
      have hsne : s.toks ≠ [] :=
        suffix_ne_nil (stmt_list_suffix (g + 1) s r h) hne
      rw [Runner.stmt_list] at h
      rw [Runner.stmt_list]
      by_cases hc : la? s = some "id" ∨ la? s = some "print"
      · rw [if_pos hc] at h
        rw [if_pos (by
          rw [la?_append_ne s.toks extra s.st s.st s.out s.out hsne]
          exact hc)]
        cases hS : Runner.stmt g s with
        | none => rw [hS] at h; simp at h
        | some pr =>
            rw [hS] at h
            cases pr with
            | err e1 s1 =>
                simp only [] at h
                cases h
                rw [stmt_append g s extra (.err e1 s1) hS hne]
                simp [PRes.appendToks]
            | ok u s1 =>
                simp only [] at h
                have hs1 : s1.toks ≠ [] :=
                  suffix_ne_nil (stmt_list_suffix g s1 r h) hne
                rw [stmt_append g s extra (.ok u s1) hS hs1]
                simp only [PRes.appendToks]
                exact stmt_list_append g s1 extra r h hne
      · rw [if_neg hc] at h
        rw [if_neg (by
          rw [la?_append_ne s.toks extra s.st s.st s.out s.out hsne]
          exact hc)]
        by_cases hc2 : la? s = Option.none
        · rw [if_pos hc2] at h
          cases h
          exact absurd (by
            obtain ⟨ts, stt, outt⟩ := s
            cases ts with
            | nil => rfl
            | cons t ts' => simp [la?] at hc2) hne
        · rw [if_neg hc2] at h
          cases h
          rw [if_neg (by
            rw [la?_append_ne s.toks extra s.st s.st s.out s.out hsne]
            exact hc2)]
          simp [PRes.appendToks]

/-!  Simulation between the recognize-only engine of `parser.py` and the
evaluating engine of `runner.py`: on inputs where evaluation raises no
undefined-identifier error, the two accept, fail and time out together,
leaving the same token remainder on success. -/

theorem rshape_eq_none {r : Option RRes} (h : rshape r = Option.none) :
    r = Option.none := by
  cases r with
  | none => rfl
  | some rr => cases rr <;> simp [rshape] at h

theorem rshape_eq_ok {r : Option RRes} {ts : List Tok}
    (h : rshape r = some (some ts)) : r = some (.ok ts) := by
  cases r with
  | none => simp [rshape] at h
  | some rr =>
      cases rr with
      | ok ts' => simp [rshape] at h; rw [h]
      | err e ts' => simp [rshape] at h

theorem rshape_eq_err {r : Option RRes} (h : rshape r = some Option.none) :
    ∃ e ts, r = some (.err e ts) := by
  cases r with
  | none => simp [rshape] at h
  | some rr =>
      cases rr with
      | ok ts' => simp [rshape] at h
      | err e ts' => exact ⟨e, ts', rfl⟩

/-- `match` of the two engines agree: same consumption, same raise. -/
theorem sim_matchTok (tok : String) (s : PState) :
    Recog.matchTok tok s.toks
      = (match Runner.matchTok tok s with
          | .ok _ s1 => RRes.ok s1.toks
          | .err e s1 => RRes.err e s1.toks) := by
  obtain ⟨ts, stt, outt⟩ := s
  cases ts with
  | nil => rfl
  | cons t ts' =>
      simp only [Recog.matchTok, Runner.matchTok]
      by_cases h : t.la = tok
      · rw [if_pos h, if_pos h]
      · rw [if_neg h, if_neg h]

mutual

theorem sim_expr (f : Nat) :
    ∀ (s : PState), isUV (Runner.expr f s) = false →
      rshape (Recog.expr f s.toks) = eshape (Runner.expr f s) := by
  match f with
  | 0 => intro s hUV; rfl
  | g + 1 =>
      intro s hUV
      rw [Runner.expr] at hUV ⊢
      rw [Recog.expr]
      by_cases hc : la? s = some "id" ∨ la? s = some "binary" ∨ la? s = some "("
      · have hcR : Recog.rla? s.toks = some "id"
            ∨ Recog.rla? s.toks = some "binary"
            ∨ Recog.rla? s.toks = some "(" := hc
        rw [if_pos hc] at hUV ⊢
        rw [if_pos hcR]
        cases hT : Runner.term g s with
        | none =>
            rw [hT] at hUV
            have hSim := sim_term g s (by rw [hT]; rfl)
            rw [hT] at hSim
            rw [rshape_eq_none hSim]
            rfl
        | some pr =>
            rw [hT] at hUV
            cases pr with
            | err e1 s1 =>
                cases e1 with
                | undefinedVar x => simp [isUV] at hUV
                | parseError m =>
                    simp only [] at hUV ⊢
                    have hSim := sim_term g s (by rw [hT]; rfl)
                    rw [hT] at hSim
                    obtain ⟨e', ts', hRec⟩ := rshape_eq_err hSim
                    rw [hRec]
                    rfl
            | ok a s1 =>
                simp only [] at hUV ⊢
                have hSimT := sim_term g s (by rw [hT]; rfl)
                rw [hT] at hSimT
                rw [rshape_eq_ok hSimT]
                simp only []
                cases hTT : Runner.term_tail g s1 with
                | none =>
                    rw [hTT] at hUV
                    have hSim2 := sim_term_tail g s1 (by rw [hTT]; rfl)
                    rw [hTT] at hSim2
                    rw [rshape_eq_none hSim2]
                    rfl
                | some pr2 =>
                    rw [hTT] at hUV
                    cases pr2 with
                    | err e2 s2 =>
                        cases e2 with
                        | undefinedVar x => simp [isUV] at hUV
                        | parseError m =>
                            simp only [] at hUV ⊢
                            have hSim2 := sim_term_tail g s1 (by rw [hTT]; rfl)
                            rw [hTT] at hSim2
                            obtain ⟨e', ts', hRec⟩ := rshape_eq_err hSim2
                            rw [hRec]
                            rfl
                    | ok bs s2 =>
                        simp only [] at hUV ⊢
                        have hSim2 := sim_term_tail g s1 (by rw [hTT]; rfl)
                        rw [hTT] at hSim2
                        exact hSim2
      · have hcR : ¬(Recog.rla? s.toks = some "id"
            ∨ Recog.rla? s.toks = some "binary"
            ∨ Recog.rla? s.toks = some "(") := hc
        rw [if_neg hc] at hUV ⊢
        rw [if_neg hcR]
        rfl

theorem sim_term (f : Nat) :
    ∀ (s : PState), isUV (Runner.term f s) = false →
      rshape (Recog.term f s.toks) = eshape (Runner.term f s) := by
  match f with
  | 0 => intro s hUV; rfl
  | g + 1 =>
      intro s hUV
      rw [Runner.term] at hUV ⊢
      rw [Recog.term]
      by_cases hc : la? s = some "id" ∨ la? s = some "binary" ∨ la? s = some "("
      · have hcR : Recog.rla? s.toks = some "id"
            ∨ Recog.rla? s.toks = some "binary"
            ∨ Recog.rla? s.toks = some "(" := hc
        rw [if_pos hc] at hUV ⊢
        rw [if_pos hcR]
        cases hT : Runner.factor g s with
        | none =>
            rw [hT] at hUV
            have hSim := sim_factor g s (by rw [hT]; rfl)
            rw [hT] at hSim
            rw [rshape_eq_none hSim]
            rfl
        | some pr =>
            rw [hT] at hUV
            cases pr with
            | err e1 s1 =>
                cases e1 with
                | undefinedVar x => simp [isUV] at hUV
                | parseError m =>
                    simp only [] at hUV ⊢
                    have hSim := sim_factor g s (by rw [hT]; rfl)
                    rw [hT] at hSim
                    obtain ⟨e', ts', hRec⟩ := rshape_eq_err hSim
                    rw [hRec]
                    rfl
            | ok a s1 =>
                simp only [] at hUV ⊢
                have hSimT := sim_factor g s (by rw [hT]; rfl)
                rw [hT] at hSimT
                rw [rshape_eq_ok hSimT]
                simp only []
                cases hTT : Runner.factor_tail g s1 with
                | none =>
                    rw [hTT] at hUV
                    have hSim2 := sim_factor_tail g s1 (by rw [hTT]; rfl)
                    rw [hTT] at hSim2
                    rw [rshape_eq_none hSim2]
                    rfl
                | some pr2 =>
                    rw [hTT] at hUV
                    cases pr2 with
                    | err e2 s2 =>
                        cases e2 with
                        | undefinedVar x => simp [isUV] at hUV
                        | parseError m =>
                            simp only [] at hUV ⊢
                            have hSim2 := sim_factor_tail g s1 (by rw [hTT]; rfl)
                            rw [hTT] at hSim2
                            obtain ⟨e', ts', hRec⟩ := rshape_eq_err hSim2
                            rw [hRec]
                            rfl
                    | ok bs s2 =>
                        simp only [] at hUV ⊢
                        have hSim2 := sim_factor_tail g s1 (by rw [hTT]; rfl)
                        rw [hTT] at hSim2
                        exact hSim2
      · have hcR : ¬(Recog.rla? s.toks = some "id"
            ∨ Recog.rla? s.toks = some "binary"
            ∨ Recog.rla? s.toks = some "(") := hc
        rw [if_neg hc] at hUV ⊢
        rw [if_neg hcR]
        rfl

theorem sim_term_tail (f : Nat) :
    ∀ (s : PState), isUV (Runner.term_tail f s) = false →
      rshape (Recog.term_tail f s.toks) = eshape (Runner.term_tail f s) := by
  match f with
  | 0 => intro s hUV; rfl
  | g + 1 =>
      intro s hUV
      rw [Runner.term_tail] at hUV ⊢
      rw [Recog.term_tail]
      by_cases hc : la? s = some "xor"
      · have hcR : Recog.rla? s.toks = some "xor" := hc
        rw [if_pos hc] at hUV ⊢
        rw [if_pos hcR]
        have hRM := sim_matchTok "xor" s
        cases hM : Runner.matchTok "xor" s with
        | err e1 s1 =>
            rw [hM] at hUV
            rw [hM] at hRM
            simp only [] at hRM hUV ⊢
            rw [hRM]
            rfl
        | ok v s1 =>
            rw [hM] at hUV
            rw [hM] at hRM
            simp only [] at hRM hUV ⊢
            rw [hRM]
            simp only []
            cases hT : Runner.term g s1 with
            | none =>
                rw [hT] at hUV
                have hSim := sim_term g s1 (by rw [hT]; rfl)
                rw [hT] at hSim
                rw [rshape_eq_none hSim]
                rfl
            | some pr =>
                rw [hT] at hUV
                cases pr with
                | err e2 s2 =>
                    cases e2 with
                    | undefinedVar x => simp [isUV] at hUV
                    | parseError m =>
                        simp only [] at hUV ⊢
                        have hSim := sim_term g s1 (by rw [hT]; rfl)
                        rw [hT] at hSim
                        obtain ⟨e', ts', hRec⟩ := rshape_eq_err hSim
                        rw [hRec]
                        rfl
                | ok a s2 =>
                    simp only [] at hUV ⊢
                    have hSimT := sim_term g s1 (by rw [hT]; rfl)
                    rw [hT] at hSimT
                    rw [rshape_eq_ok hSimT]
                    simp only []
                    cases hTT : Runner.term_tail g s2 with
                    | none =>
                        rw [hTT] at hUV
                        have hSim2 := sim_term_tail g s2 (by rw [hTT]; rfl)
                        rw [hTT] at hSim2
                        rw [rshape_eq_none hSim2]
                        rfl
                    | some pr2 =>
                        rw [hTT] at hUV
                        cases pr2 with
                        | err e3 s3 =>
                            cases e3 with
                            | undefinedVar x => simp [isUV] at hUV
                            | parseError m =>
                                simp only [] at hUV ⊢
                                have hSim2 := sim_term_tail g s2 (by rw [hTT]; rfl)
                                rw [hTT] at hSim2
                                obtain ⟨e', ts', hRec⟩ := rshape_eq_err hSim2
                                rw [hRec]
                                rfl
                        | ok bs s3 =>
                            simp only [] at hUV ⊢
                            have hSim2 := sim_term_tail g s2 (by rw [hTT]; rfl)
                            rw [hTT] at hSim2
                            exact hSim2
      · have hcR : ¬Recog.rla? s.toks = some "xor" := hc
        rw [if_neg hc] at hUV ⊢
        rw [if_neg hcR]
        by_cases hc2 : la? s = Option.none ∨ la? s = some ")" ∨ la? s = some "id"
            ∨ la? s = some "print"
        · have hc2R : Recog.rla? s.toks = Option.none
              ∨ Recog.rla? s.toks = some ")" ∨ Recog.rla? s.toks = some "id"
              ∨ Recog.rla? s.toks = some "print" := hc2
          rw [if_pos hc2, if_pos hc2R]
          rfl
        · have hc2R : ¬(Recog.rla? s.toks = Option.none
              ∨ Recog.rla? s.toks = some ")" ∨ Recog.rla? s.toks = some "id"
              ∨ Recog.rla? s.toks = some "print") := hc2
          rw [if_neg hc2, if_neg hc2R]
          rfl

theorem sim_factor (f : Nat) :
    ∀ (s : PState), isUV (Runner.factor f s) = false →
      rshape (Recog.factor f s.toks) = eshape (Runner.factor f s) := by
  match f with
  | 0 => intro s hUV; rfl
  | g + 1 =>
      intro s hUV
      rw [Runner.factor] at hUV ⊢
      rw [Recog.factor]
      by_cases hc : la? s = some "id" ∨ la? s = some "binary" ∨ la? s = some "("
      · have hcR : Recog.rla? s.toks = some "id"
            ∨ Recog.rla? s.toks = some "binary"
            ∨ Recog.rla? s.toks = some "(" := hc
        rw [if_pos hc] at hUV ⊢
        rw [if_pos hcR]
        cases hT : Runner.operand g s with
        | none =>
            rw [hT] at hUV
            have hSim := sim_operand g s (by rw [hT]; rfl)
            rw [hT] at hSim
            rw [rshape_eq_none hSim]
            rfl
        | some pr =>
            rw [hT] at hUV
            cases pr with
            | err e1 s1 =>
                cases e1 with
                | undefinedVar x => simp [isUV] at hUV
                | parseError m =>
                    simp only [] at hUV ⊢
                    have hSim := sim_operand g s (by rw [hT]; rfl)
                    rw [hT] at hSim
                    obtain ⟨e', ts', hRec⟩ := rshape_eq_err hSim
                    rw [hRec]
                    rfl
            | ok a s1 =>
                simp only [] at hUV ⊢
                have hSimT := sim_operand g s (by rw [hT]; rfl)
                rw [hT] at hSimT
                rw [rshape_eq_ok hSimT]
                simp only []
                cases hTT : Runner.operand_tail g s1 with
                | none =>
                    rw [hTT] at hUV
                    have hSim2 := sim_operand_tail g s1 (by rw [hTT]; rfl)
                    rw [hTT] at hSim2
                    rw [rshape_eq_none hSim2]
                    rfl
                | some pr2 =>
                    rw [hTT] at hUV
                    cases pr2 with
                    | err e2 s2 =>
                        cases e2 with
                        | undefinedVar x => simp [isUV] at hUV
                        | parseError m =>
                            simp only [] at hUV ⊢
                            have hSim2 := sim_operand_tail g s1 (by rw [hTT]; rfl)
                            rw [hTT] at hSim2
                            obtain ⟨e', ts', hRec⟩ := rshape_eq_err hSim2
                            rw [hRec]
                            rfl
                    | ok bs s2 =>
                        simp only [] at hUV ⊢
                        have hSim2 := sim_operand_tail g s1 (by rw [hTT]; rfl)
                        rw [hTT] at hSim2
                        exact hSim2
      · have hcR : ¬(Recog.rla? s.toks = some "id"
            ∨ Recog.rla? s.toks = some "binary"
            ∨ Recog.rla? s.toks = some "(") := hc
        rw [if_neg hc] at hUV ⊢
        rw [if_neg hcR]
        rfl

theorem sim_factor_tail (f : Nat) :
    ∀ (s : PState), isUV (Runner.factor_tail f s) = false →
      rshape (Recog.factor_tail f s.toks) = eshape (Runner.factor_tail f s) := by
  match f with
  | 0 => intro s hUV; rfl
  | g + 1 =>
      intro s hUV
      rw [Runner.factor_tail] at hUV ⊢
      rw [Recog.factor_tail]
      by_cases hc : la? s = some "or"
      · have hcR : Recog.rla? s.toks = some "or" := hc
        rw [if_pos hc] at hUV ⊢
        rw [if_pos hcR]
        have hRM := sim_matchTok "or" s
        cases hM : Runner.matchTok "or" s with
        | err e1 s1 =>
            rw [hM] at hUV
            rw [hM] at hRM
            simp only [] at hRM hUV ⊢
            rw [hRM]
            rfl
        | ok v s1 =>
            rw [hM] at hUV
            rw [hM] at hRM
            simp only [] at hRM hUV ⊢
            rw [hRM]
            simp only []
            cases hT : Runner.factor g s1 with
            | none =>
                rw [hT] at hUV
                have hSim := sim_factor g s1 (by rw [hT]; rfl)
                rw [hT] at hSim
                rw [rshape_eq_none hSim]
                rfl
            | some pr =>
                rw [hT] at hUV
                cases pr with
                | err e2 s2 =>
                    cases e2 with
                    | undefinedVar x => simp [isUV] at hUV
                    | parseError m =>
                        simp only [] at hUV ⊢
                        have hSim := sim_factor g s1 (by rw [hT]; rfl)
                        rw [hT] at hSim
                        obtain ⟨e', ts', hRec⟩ := rshape_eq_err hSim
                        rw [hRec]
                        rfl
                | ok a s2 =>
                    simp only [] at hUV ⊢
                    have hSimT := sim_factor g s1 (by rw [hT]; rfl)
                    rw [hT] at hSimT
                    rw [rshape_eq_ok hSimT]
                    simp only []
                    cases hTT : Runner.factor_tail g s2 with
                    | none =>
                        rw [hTT] at hUV
                        have hSim2 := sim_factor_tail g s2 (by rw [hTT]; rfl)
                        rw [hTT] at hSim2
                        rw [rshape_eq_none hSim2]
                        rfl
                    | some pr2 =>
                        rw [hTT] at hUV
                        cases pr2 with
                        | err e3 s3 =>
                            cases e3 with
                            | undefinedVar x => simp [isUV] at hUV
                            | parseError m =>
                                simp only [] at hUV ⊢
                                have hSim2 := sim_factor_tail g s2 (by rw [hTT]; rfl)
                                rw [hTT] at hSim2
                                obtain ⟨e', ts', hRec⟩ := rshape_eq_err hSim2
                                rw [hRec]
                                rfl
                        | ok bs s3 =>
                            simp only [] at hUV ⊢
                            have hSim2 := sim_factor_tail g s2 (by rw [hTT]; rfl)
                            rw [hTT] at hSim2
                            exact hSim2
      · have hcR : ¬Recog.rla? s.toks = some "or" := hc
        rw [if_neg hc] at hUV ⊢
        rw [if_neg hcR]
        by_cases hc2 : la? s = Option.none ∨ la? s = some ")" ∨ la? s = some "xor"
            ∨ la? s = some "id" ∨ la? s = some "print"
        · have hc2R : Recog.rla? s.toks = Option.none
              ∨ Recog.rla? s.toks = some ")" ∨ Recog.rla? s.toks = some "xor"
              ∨ Recog.rla? s.toks = some "id"
              ∨ Recog.rla? s.toks = some "print" := hc2
          rw [if_pos hc2, if_pos hc2R]
          rfl
        · have hc2R : ¬(Recog.rla? s.toks = Option.none
              ∨ Recog.rla? s.toks = some ")" ∨ Recog.rla? s.toks = some "xor"
              ∨ Recog.rla? s.toks = some "id"
              ∨ Recog.rla? s.toks = some "print") := hc2
          rw [if_neg hc2, if_neg hc2R]
          rfl

theorem sim_operand (f : Nat) :
    ∀ (s : PState), isUV (Runner.operand f s) = false →
      rshape (Recog.operand f s.toks) = eshape (Runner.operand f s) := by
  match f with
  | 0 => intro s hUV; rfl
  | g + 1 =>
      intro s hUV
      rw [Runner.operand] at hUV ⊢
      rw [Recog.operand]
      by_cases hc : la? s = some "id"
      · have hcR : Recog.rla? s.toks = some "id" := hc
        rw [if_pos hc] at hUV ⊢
        rw [if_pos hcR]
        have hRM := sim_matchTok "id" s
        cases hM : Runner.matchTok "id" s with
        | err e1 s1 =>
            rw [hM] at hUV
            rw [hM] at hRM
            simp only [] at hRM hUV ⊢
            rw [hRM]
            rfl
        | ok v s1 =>
            rw [hM] at hUV
            rw [hM] at hRM
            simp only [] at hRM hUV ⊢
            rw [hRM]
            by_cases hv : v = PyVal.none
            · rw [if_pos hv] at hUV
              simp [isUV] at hUV
            · rw [if_neg hv] at hUV ⊢
              rfl
      · have hcR : ¬Recog.rla? s.toks = some "id" := hc
        rw [if_neg hc] at hUV ⊢
        rw [if_neg hcR]
        by_cases hc2 : la? s = some "binary"
        · have hc2R : Recog.rla? s.toks = some "binary" := hc2
          rw [if_pos hc2] at hUV ⊢
          rw [if_pos hc2R]
          have hRM := sim_matchTok "binary" s
          cases hM : Runner.matchTok "binary" s with
          | err e1 s1 =>
              rw [hM] at hUV
              rw [hM] at hRM
              simp only [] at hRM hUV ⊢
              rw [hRM]
              rfl
          | ok v s1 =>
              rw [hM] at hUV
              rw [hM] at hRM
              simp only [] at hRM hUV ⊢
              rw [hRM]
              rfl
        · have hc2R : ¬Recog.rla? s.toks = some "binary" := hc2
          rw [if_neg hc2] at hUV ⊢
          rw [if_neg hc2R]
          by_cases hc3 : la? s = some "("
          · have hc3R : Recog.rla? s.toks = some "(" := hc3
            rw [if_pos hc3] at hUV ⊢
            rw [if_pos hc3R]
            have hRM := sim_matchTok "(" s
            cases hM : Runner.matchTok "(" s with
            | err e1 s1 =>
                rw [hM] at hUV
                rw [hM] at hRM
                simp only [] at hRM hUV ⊢
                rw [hRM]
                rfl
            | ok v s1 =>
                rw [hM] at hUV
                rw [hM] at hRM
                simp only [] at hRM hUV ⊢
                rw [hRM]
                simp only []
                cases hE : Runner.expr g s1 with
                | none =>
                    rw [hE] at hUV
                    have hSim := sim_expr g s1 (by rw [hE]; rfl)
                    rw [hE] at hSim
                    rw [rshape_eq_none hSim]
                    rfl
                | some pr =>
                    rw [hE] at hUV
                    cases pr with
                    | err e2 s2 =>
                        cases e2 with
                        | undefinedVar x => simp [isUV] at hUV
                        | parseError m =>
                            simp only [] at hUV ⊢
                            have hSim := sim_expr g s1 (by rw [hE]; rfl)
                            rw [hE] at hSim
                            obtain ⟨e', ts', hRec⟩ := rshape_eq_err hSim
                            rw [hRec]
                            rfl
                    | ok a s2 =>
                        simp only [] at hUV ⊢
                        have hSimE := sim_expr g s1 (by rw [hE]; rfl)
                        rw [hE] at hSimE
                        rw [rshape_eq_ok hSimE]
                        simp only []
                        have hRM2 := sim_matchTok ")" s2
                        cases hM2 : Runner.matchTok ")" s2 with
                        | err e3 s3 =>
                            rw [hM2] at hUV
                            rw [hM2] at hRM2
                            simp only [] at hRM2 hUV ⊢
                            rw [hRM2]
                            rfl
                        | ok w s3 =>
                            rw [hM2] at hUV
                            rw [hM2] at hRM2
                            simp only [] at hRM2 hUV ⊢
                            rw [hRM2]
                            rfl
          · have hc3R : ¬Recog.rla? s.toks = some "(" := hc3
            rw [if_neg hc3] at hUV ⊢
            rw [if_neg hc3R]
            rfl

theorem sim_operand_tail (f : Nat) :
    ∀ (s : PState), isUV (Runner.operand_tail f s) = false →
      rshape (Recog.operand_tail f s.toks) = eshape (Runner.operand_tail f s) := by
  match f with
  | 0 => intro s hUV; rfl
  | g + 1 =>
      intro s hUV
      rw [Runner.operand_tail] at hUV ⊢
      rw [Recog.operand_tail]
      by_cases hc : la? s = some "and"
      · have hcR : Recog.rla? s.toks = some "and" := hc
        rw [if_pos hc] at hUV ⊢
        rw [if_pos hcR]
        have hRM := sim_matchTok "and" s
        cases hM : Runner.matchTok "and" s with
        | err e1 s1 =>
            rw [hM] at hUV
            rw [hM] at hRM
            simp only [] at hRM hUV ⊢
            rw [hRM]
            rfl
        | ok v s1 =>
            rw [hM] at hUV
            rw [hM] at hRM
            simp only [] at hRM hUV ⊢
            rw [hRM]
            simp only []
            cases hT : Runner.operand g s1 with
            | none =>
                rw [hT] at hUV
                have hSim := sim_operand g s1 (by rw [hT]; rfl)
                rw [hT] at hSim
                rw [rshape_eq_none hSim]
                rfl
            | some pr =>
                rw [hT] at hUV
                cases pr with
                | err e2 s2 =>
                    cases e2 with
                    | undefinedVar x => simp [isUV] at hUV
                    | parseError m =>
                        simp only [] at hUV ⊢
                        have hSim := sim_operand g s1 (by rw [hT]; rfl)
                        rw [hT] at hSim
                        obtain ⟨e', ts', hRec⟩ := rshape_eq_err hSim
                        rw [hRec]
                        rfl
                | ok a s2 =>
                    simp only [] at hUV ⊢
                    have hSimT := sim_operand g s1 (by rw [hT]; rfl)
                    rw [hT] at hSimT
                    rw [rshape_eq_ok hSimT]
                    simp only []
                    cases hTT : Runner.operand_tail g s2 with
                    | none =>
                        rw [hTT] at hUV
                        have hSim2 := sim_operand_tail g s2 (by rw [hTT]; rfl)
                        rw [hTT] at hSim2
                        rw [rshape_eq_none hSim2]
                        rfl
                    | some pr2 =>
                        rw [hTT] at hUV
                        cases pr2 with
                        | err e3 s3 =>
                            cases e3 with
                            | undefinedVar x => simp [isUV] at hUV
                            | parseError m =>
                                simp only [] at hUV ⊢
                                have hSim2 := sim_operand_tail g s2 (by rw [hTT]; rfl)
                                rw [hTT] at hSim2
                                obtain ⟨e', ts', hRec⟩ := rshape_eq_err hSim2
                                rw [hRec]
                                rfl
                        | ok bs s3 =>
                            simp only [] at hUV ⊢
                            have hSim2 := sim_operand_tail g s2 (by rw [hTT]; rfl)
                            rw [hTT] at hSim2
                            exact hSim2
      · have hcR : ¬Recog.rla? s.toks = some "and" := hc
        rw [if_neg hc] at hUV ⊢
        rw [if_neg hcR]
        by_cases hc2 : la? s = Option.none ∨ la? s = some ")" ∨ la? s = some "xor"
            ∨ la? s = some "or" ∨ la? s = some "id" ∨ la? s = some "print"
        · have hc2R : Recog.rla? s.toks = Option.none
              ∨ Recog.rla? s.toks = some ")" ∨ Recog.rla? s.toks = some "xor"
              ∨ Recog.rla? s.toks = some "or" ∨ Recog.rla? s.toks = some "id"
              ∨ Recog.rla? s.toks = some "print" := hc2
          rw [if_pos hc2, if_pos hc2R]
          rfl
        · have hc2R : ¬(Recog.rla? s.toks = Option.none
              ∨ Recog.rla? s.toks = some ")" ∨ Recog.rla? s.toks = some "xor"
              ∨ Recog.rla? s.toks = some "or" ∨ Recog.rla? s.toks = some "id"
              ∨ Recog.rla? s.toks = some "print") := hc2
          rw [if_neg hc2, if_neg hc2R]
          rfl

end

theorem sim_stmt (f : Nat) :
    ∀ (s : PState), isUV (Runner.stmt f s) = false →
      rshape (Recog.stmt f s.toks) = eshape (Runner.stmt f s) := by
  match f with
  | 0 => intro s hUV; rfl
  | g + 1 =>
      intro s hUV
      rw [Runner.stmt] at hUV ⊢
      rw [Recog.stmt]
      by_cases hc : la? s = some "id"
      · have hcR : Recog.rla? s.toks = some "id" := hc
        rw [if_pos hc] at hUV ⊢
        rw [if_pos hcR]
        have hRM := sim_matchTok "id" s
        cases hM : Runner.matchTok "id" s with
        | err e1 s1 =>
            rw [hM] at hUV
            rw [hM] at hRM
            simp only [] at hRM hUV ⊢
            rw [hRM]
            rfl
        | ok v s1 =>
            rw [hM] at hUV
            rw [hM] at hRM
            simp only [] at hRM hUV ⊢
            rw [hRM]
            simp only []
            have hRM2 := sim_matchTok "=" s1
            cases hM2 : Runner.matchTok "=" s1 with
            | err e2 s2 =>
                rw [hM2] at hUV
                rw [hM2] at hRM2
                simp only [] at hRM2 hUV ⊢
                rw [hRM2]
                rfl
            | ok w s2 =>
                rw [hM2] at hUV
                rw [hM2] at hRM2
                simp only [] at hRM2 hUV ⊢
                rw [hRM2]
                simp only []
                cases hE : Runner.expr g s2 with
                | none =>
                    rw [hE] at hUV
                    have hSim := sim_expr g s2 (by rw [hE]; rfl)
                    rw [hE] at hSim
                    rw [rshape_eq_none hSim]
                    rfl
                | some pr =>
                    rw [hE] at hUV
                    cases pr with
                    | err e3 s3 =>
                        cases e3 with
                        | undefinedVar x => simp [isUV] at hUV
                        | parseError m =>
                            simp only [] at hUV ⊢
                            have hSim := sim_expr g s2 (by rw [hE]; rfl)
                            rw [hE] at hSim
                            obtain ⟨e', ts', hRec⟩ := rshape_eq_err hSim
                            rw [hRec]
                            rfl
                    | ok a s3 =>
                        simp only [] at hUV ⊢
                        have hSim := sim_expr g s2 (by rw [hE]; rfl)
                        rw [hE] at hSim
                        rw [rshape_eq_ok hSim]
                        rfl
      · have hcR : ¬Recog.rla? s.toks = some "id" := hc
        rw [if_neg hc] at hUV ⊢
        rw [if_neg hcR]
        by_cases hc2 : la? s = some "print"
        · have hc2R : Recog.rla? s.toks = some "print" := hc2
          rw [if_pos hc2] at hUV ⊢
          rw [if_pos hc2R]
          have hRM := sim_matchTok "print" s
          cases hM : Runner.matchTok "print" s with
          | err e1 s1 =>
              rw [hM] at hUV
              rw [hM] at hRM
              simp only [] at hRM hUV ⊢
              rw [hRM]
              rfl
          | ok v s1 =>
              rw [hM] at hUV
              rw [hM] at hRM
              simp only [] at hRM hUV ⊢
              rw [hRM]
              simp only []
              cases hE : Runner.expr g s1 with
              | none =>
                  rw [hE] at hUV
                  have hSim := sim_expr g s1 (by rw [hE]; rfl)
                  rw [hE] at hSim
                  rw [rshape_eq_none hSim]
                  rfl
              | some pr =>
                  rw [hE] at hUV
                  cases pr with
                  | err e2 s2 =>
                      cases e2 with
                      | undefinedVar x => simp [isUV] at hUV
                      | parseError m =>
                          simp only [] at hUV ⊢
                          have hSim := sim_expr g s1 (by rw [hE]; rfl)
                          rw [hE] at hSim
                          obtain ⟨e', ts', hRec⟩ := rshape_eq_err hSim
                          rw [hRec]
                          rfl
                  | ok a s2 =>
                      simp only [] at hUV ⊢
                      have hSim := sim_expr g s1 (by rw [hE]; rfl)
                      rw [hE] at hSim
                      rw [rshape_eq_ok hSim]
                      rfl
        · have hc2R : ¬Recog.rla? s.toks = some "print" := hc2
          rw [if_neg hc2] at hUV ⊢
          rw [if_neg hc2R]
          rfl

theorem sim_stmt_list (f : Nat) :
    ∀ (s : PState), isUV (Runner.stmt_list f s) = false →
      rshape (Recog.stmt_list f s.toks) = eshape (Runner.stmt_list f s) := by
  match f with
  | 0 => intro s hUV; rfl
  | g + 1 =>
      intro s hUV
      rw [Runner.stmt_list] at hUV ⊢
      rw [Recog.stmt_list]
      by_cases hc : la? s = some "id" ∨ la? s = some "print"
      · have hcR : Recog.rla? s.toks = some "id"
            ∨ Recog.rla? s.toks = some "print" := hc
        rw [if_pos hc] at hUV ⊢
        rw [if_pos hcR]
        cases hS : Runner.stmt g s with
        | none =>
            rw [hS] at hUV
            have hSim := sim_stmt g s (by rw [hS]; rfl)
            rw [hS] at hSim
            rw [rshape_eq_none hSim]
            rfl
        | some pr =>
            rw [hS] at hUV
            cases pr with
            | err e1 s1 =>
                cases e1 with
                | undefinedVar x => simp [isUV] at hUV
                | parseError m =>
                    simp only [] at hUV ⊢
                    have hSim := sim_stmt g s (by rw [hS]; rfl)
                    rw [hS] at hSim
                    obtain ⟨e', ts', hRec⟩ := rshape_eq_err hSim
                    rw [hRec]
                    rfl
            | ok u s1 =>
                simp only [] at hUV ⊢
                have hSimS := sim_stmt g s (by rw [hS]; rfl)
                rw [hS] at hSimS
                rw [rshape_eq_ok hSimS]
                simp only []
                exact sim_stmt_list g s1 hUV
      · have hcR : ¬(Recog.rla? s.toks = some "id"
            ∨ Recog.rla? s.toks = some "print") := hc
        rw [if_neg hc] at hUV ⊢
        rw [if_neg hcR]
        by_cases hc2 : la? s = Option.none
        · have hc2R : Recog.rla? s.toks = Option.none := hc2
          rw [if_pos hc2, if_pos hc2R]
          rfl
        · have hc2R : ¬Recog.rla? s.toks = Option.none := hc2
          rw [if_neg hc2, if_neg hc2R]
          rfl

/-!  The claims. -/

/-- C1: for every well-formed program built from binary literals and
previously assigned variables, the evaluating engine accepts the
program's token rendering and each print statement emits exactly the
value computed by the reference big-integer (`Nat`) bitwise evaluator:
`and`-folds inside `or`-folds inside `xor`-folds (precedence
`and` > `or` > `xor`), parentheses overriding precedence through the
`paren` operand, each expression read against the table left by the
assignments before it. -/
theorem claim1_print_matches_reference (prog : List AStmt) (f : Nat)
    (hwf : wfP prog [] = true) (hf : sizeP prog ≤ f) :
    Runner.runProg f (toksP prog)
      = some (.ok () { toks := [], st := refSt prog [], out := refOut prog [] }) :=
  stmt_list_run prog f [] [] hwf hf

/-- C1 witness: `x = 0101` then `print x xor 11` prints `110`. -/
theorem claim1_witness :
    Runner.runProg 30 (toksP
        [AStmt.assign "x" (AExpr.mk (ATerm.mk (AFactor.mk (AOperand.alit "0101")
            AOperandTail.nil) AFactorTail.nil) ATermTail.nil),
         AStmt.aprint (AExpr.mk (ATerm.mk (AFactor.mk (AOperand.avar "x")
            AOperandTail.nil) AFactorTail.nil)
          (ATermTail.cons (ATerm.mk (AFactor.mk (AOperand.alit "11")
            AOperandTail.nil) AFactorTail.nil) ATermTail.nil))])
      = some (.ok () { toks := [], st := [("x", 5)], out := ["110"] }) := by
  rw [claim1_print_matches_reference _ 30 (by decide) (by decide)]
  decide

/-- C2: resolving an identifier with no prior assignment raises the
undefined-identifier `RuntimeError`, a kind distinct from every syntax
error, and never substitutes zero or any other default: the operand
errs instead of returning a value, and the program `print y` errs with
`undefinedVar "y"` having printed nothing. -/
theorem claim2_undefined_identifier (x : String) (st : List (String × Nat))
    (rest : List Tok) (out : List String) (f : Nat)
    (hst : stGet st x = Option.none) (hf : 1 ≤ f) :
    Runner.operand f { toks := Tok.mk "id" x :: rest, st := st, out := out }
      = some (.err (.undefinedVar x) { toks := rest, st := st, out := out })
    ∧ (∀ m : String, Err.undefinedVar x ≠ Err.parseError m)
    ∧ (∀ y : String,
        Runner.runProg 9 [Tok.mk "print" "print", Tok.mk "id" y]
          = some (.err (.undefinedVar y) { toks := [], st := [], out := [] })) := by
  refine ⟨?_, fun m h => Err.noConfusion h, fun y => ?_⟩
  · cases f with
    | zero => omega
    | succ f =>
        simp [Runner.operand, la?, val?, Runner.matchTok, Runner.evaluate, hst]
  · simp [Runner.runProg, Runner.stmt_list, Runner.stmt, Runner.expr,
      Runner.term, Runner.factor, Runner.operand, Runner.matchTok,
      Runner.evaluate, la?, val?, stGet]

/-- C2 witness. -/
theorem claim2_witness :
    Runner.operand 1 { toks := [Tok.mk "id" "y"], st := [], out := [] }
      = some (.err (.undefinedVar "y") { toks := [], st := [], out := [] })
    ∧ (∀ m : String, Err.undefinedVar "y" ≠ Err.parseError m)
    ∧ (∀ y : String,
        Runner.runProg 9 [Tok.mk "print" "print", Tok.mk "id" y]
          = some (.err (.undefinedVar y) { toks := [], st := [], out := [] })) :=
  claim2_undefined_identifier "y" [] [] [] 1 rfl (by decide)

/-- C3: assigning a binary literal to a variable and immediately printing
it reproduces the literal modulo leading zeros: the program `x = d`,
`print x` prints exactly `fmtB (binToNat d)`, the minimal binary
rendering of the literal's value (the digits evaluate back to the value,
a nonzero value starts with digit 1, zero renders as exactly "0"). -/
theorem claim3_literal_round_trip (x d : String) (f : Nat) (hf : 19 ≤ f) :
    Runner.runProg f
        [Tok.mk "id" x, Tok.mk "=" "=", Tok.mk "binary" d,
         Tok.mk "print" "print", Tok.mk "id" x]
      = some (.ok ()
          { toks := [], st := [(x, binToNat d)], out := [fmtB (binToNat d)] })
    ∧ binToNat (fmtB (binToNat d)) = binToNat d
    ∧ fmtB 0 = "0"
    ∧ (binToNat d ≠ 0 → ∃ l, (fmtB (binToNat d)).data = '1' :: l) := by
  refine ⟨?_, binToNat_fmtB (binToNat d), rfl, fmtB_head (binToNat d)⟩
  have h := stmt_list_run
    [AStmt.assign x (AExpr.mk (ATerm.mk (AFactor.mk (AOperand.alit d)
        AOperandTail.nil) AFactorTail.nil) ATermTail.nil),
     AStmt.aprint (AExpr.mk (ATerm.mk (AFactor.mk (AOperand.avar x)
        AOperandTail.nil) AFactorTail.nil) ATermTail.nil)] f [] []
    (by simp [wfP, wfE, wfT, wfF, wfO, wfTT, wfFT, wfOT, evalE, evalT, evalF,
      evalO, evalTT, evalFT, evalOT, stGet_stSet_self])
    (by simp [sizeP, sizeS, sizeE, sizeT, sizeTT, sizeF, sizeFT, sizeO, sizeOT]; omega)
  rw [show ([Tok.mk "id" x, Tok.mk "=" "=", Tok.mk "binary" d,
      Tok.mk "print" "print", Tok.mk "id" x] : List Tok)
    = toksP [AStmt.assign x (AExpr.mk (ATerm.mk (AFactor.mk (AOperand.alit d)
        AOperandTail.nil) AFactorTail.nil) ATermTail.nil),
      AStmt.aprint (AExpr.mk (ATerm.mk (AFactor.mk (AOperand.avar x)
        AOperandTail.nil) AFactorTail.nil) ATermTail.nil)] by
    simp [toksP, toksS, toksE, toksT, toksTT, toksF, toksFT, toksO, toksOT]]
  rw [Runner.runProg, h]
  simp [refSt, refOut, evalE, evalT, evalF, evalO, evalTT, evalFT, evalOT,
    stSet, stGet, stGet_stSet_self]

/-- C3 witness: `"0101"` prints as `"101"`; `"0"` prints as `"0"`. -/
theorem claim3_witness :
    (Runner.runProg 19
        [Tok.mk "id" "x", Tok.mk "=" "=", Tok.mk "binary" "0101",
         Tok.mk "print" "print", Tok.mk "id" "x"]
      = some (.ok ()
          { toks := [], st := [("x", binToNat "0101")],
            out := [fmtB (binToNat "0101")] }))
    ∧ fmtB (binToNat "0101") = "101"
    ∧ (Runner.runProg 19
        [Tok.mk "id" "z", Tok.mk "=" "=", Tok.mk "binary" "0",
         Tok.mk "print" "print", Tok.mk "id" "z"]
      = some (.ok ()
          { toks := [], st := [("z", binToNat "0")],
            out := [fmtB (binToNat "0")] }))
    ∧ fmtB (binToNat "0") = "0" :=
  ⟨(claim3_literal_round_trip "x" "0101" 19 (by decide)).1, by decide,
   (claim3_literal_round_trip "z" "0" 19 (by decide)).1, by decide⟩

/-- C4: the lexicon deliberately recognizes `print` case-insensitively
(`plex.NoCase`), but its `plex.TEXT` action makes the token KIND the
matched spelling, and the parser compares that kind with the lowercase
string `print`; hence the program `PRINT 1` raises a syntax error in
`stmt_list` while `print 1` prints `1` — replacing `print` by a case
variant does NOT preserve the outcome, contradicting the claim; the
scanner-side `NoCase` pattern shows case-insensitivity was the intent,
so the parser-side comparison is the slip. -/
theorem claim4_print_case_insensitivity_fails :
    classify "PRINT" = Tok.mk "PRINT" "PRINT"
    ∧ classify "print" = Tok.mk "print" "print"
    ∧ classify "1" = Tok.mk "binary" "1"
    ∧ Runner.runProg 9 [classify "PRINT", classify "1"]
        = some (.err (.parseError "in stmt_list: id or print expected")
            { toks := [Tok.mk "PRINT" "PRINT", Tok.mk "binary" "1"],
              st := [], out := [] })
    ∧ Runner.runProg 9 [classify "print", classify "1"]
        = some (.ok () { toks := [], st := [], out := ["1"] }) := by
  refine ⟨?_, ?_, ?_, ?_, ?_⟩ <;> decide

/-- C5: an assignment statement evaluates its right-hand side, stores the
value under the captured identifier — overwriting any previous binding —
and the run continues on exactly the remaining statements with the
updated table; the output produced so far is untouched, other
identifiers' bindings are unaffected, and a later lookup of the
identifier reads the stored value. -/
theorem claim5_assignment_visibility (x : String) (e : AExpr) (f : Nat)
    (rest : List Tok) (st : List (String × Nat)) (out : List String)
    (hwf : wfE e st = true) (hf : 1 + sizeE e ≤ f) (hok : okAfterTT rest = true) :
    Runner.stmt f
        { toks := toksS (AStmt.assign x e) ++ rest, st := st, out := out }
      = some (.ok () { toks := rest, st := stSet st x (evalE e st), out := out })
    ∧ stGet (stSet st x (evalE e st)) x = some (evalE e st)
    ∧ (∀ y, y ≠ x → stGet (stSet st x (evalE e st)) y = stGet st y)
    ∧ Runner.stmt_list (f + 1)
        { toks := toksS (AStmt.assign x e) ++ rest, st := st, out := out }
      = Runner.stmt_list f
        { toks := rest, st := stSet st x (evalE e st), out := out } := by
  have h1 : Runner.stmt f
      { toks := toksS (AStmt.assign x e) ++ rest, st := st, out := out }
      = some (.ok ()
          { toks := rest, st := stSet st x (evalE e st), out := out }) := by
    have := stmt_run_assign x e f rest st out hwf hf hok
    simpa [toksS] using this
  refine ⟨h1, stGet_stSet_self st x (evalE e st),
    fun y hy => stGet_stSet_ne st x y (evalE e st) hy, ?_⟩
  rw [Runner.stmt_list]
  rw [if_pos (by simp [toksS, la?]), h1]

/-- C5 witness. -/
theorem claim5_witness :
    Runner.stmt 8
        { toks := toksS (AStmt.assign "x" (AExpr.mk (ATerm.mk (AFactor.mk
            (AOperand.alit "10") AOperandTail.nil) AFactorTail.nil)
            ATermTail.nil)) ++ [], st := [("x", 1)], out := [] }
      = some (.ok ()
          { toks := [],
            st := stSet [("x", 1)] "x" (evalE (AExpr.mk (ATerm.mk (AFactor.mk
              (AOperand.alit "10") AOperandTail.nil) AFactorTail.nil)
              ATermTail.nil) [("x", 1)]), out := [] })
    ∧ stGet (stSet [("x", 1)] "x" (evalE (AExpr.mk (ATerm.mk (AFactor.mk
        (AOperand.alit "10") AOperandTail.nil) AFactorTail.nil)
        ATermTail.nil) [("x", 1)])) "x"
      = some (evalE (AExpr.mk (ATerm.mk (AFactor.mk
        (AOperand.alit "10") AOperandTail.nil) AFactorTail.nil)
        ATermTail.nil) [("x", 1)])
    ∧ (∀ y, y ≠ "x" → stGet (stSet [("x", 1)] "x" (evalE (AExpr.mk (ATerm.mk
        (AFactor.mk (AOperand.alit "10") AOperandTail.nil) AFactorTail.nil)
        ATermTail.nil) [("x", 1)])) y = stGet [("x", 1)] y)
    ∧ Runner.stmt_list 9
        { toks := toksS (AStmt.assign "x" (AExpr.mk (ATerm.mk (AFactor.mk
            (AOperand.alit "10") AOperandTail.nil) AFactorTail.nil)
            ATermTail.nil)) ++ [], st := [("x", 1)], out := [] }
      = Runner.stmt_list 8
        { toks := [], st := stSet [("x", 1)] "x" (evalE (AExpr.mk (ATerm.mk
            (AFactor.mk (AOperand.alit "10") AOperandTail.nil) AFactorTail.nil)
            ATermTail.nil) [("x", 1)]), out := [] } :=
  claim5_assignment_visibility "x"
    (AExpr.mk (ATerm.mk (AFactor.mk (AOperand.alit "10") AOperandTail.nil)
      AFactorTail.nil) ATermTail.nil) 8 [] [("x", 1)] []
    (by decide) (by decide) (by decide)

/-- C6: a program run starts on the empty symbol table, and the table is
mutated only by assignments: expression evaluation and print statements
leave every binding unchanged, whether they return or raise. -/
theorem claim6_table_frame (f : Nat) :
    (∀ ts : List Tok, Runner.runProg f ts
        = Runner.stmt_list f { toks := ts, st := [], out := [] })
    ∧ (∀ (s : PState) (r : PRes Nat), Runner.expr f s = some r →
        ∀ y, stGet r.state.st y = stGet s.st y)
    ∧ (∀ (s : PState) (r : PRes Unit), la? s = some "print" →
        Runner.stmt f s = some r → ∀ y, stGet r.state.st y = stGet s.st y) :=
  ⟨fun ts => rfl,
   fun s r h y => by rw [(expr_frame f s r h).1],
   fun s r hla h y => by rw [stmt_print_frame f s r hla h]⟩

/-- C6 witness. -/
theorem claim6_witness :
    Runner.runProg 5 [Tok.mk "binary" "1"]
      = Runner.stmt_list 5 { toks := [Tok.mk "binary" "1"], st := [], out := [] }
    ∧ stGet (PRes.ok 1 { toks := [], st := [("a", 1)], out := [] }).state.st "a"
      = stGet [("a", 1)] "a"
    ∧ stGet (PRes.ok ()
        { toks := [], st := [("a", 1)], out := ["1"] }).state.st "a"
      = stGet [("a", 1)] "a" :=
  ⟨(claim6_table_frame 5).1 [Tok.mk "binary" "1"],
   (claim6_table_frame 5).2.1
     { toks := [Tok.mk "binary" "1"], st := [("a", 1)], out := [] }
     (PRes.ok 1 { toks := [], st := [("a", 1)], out := [] }) (by decide) "a",
   (claim6_table_frame 6).2.2
     { toks := [Tok.mk "print" "print", Tok.mk "binary" "1"],
       st := [("a", 1)], out := [] }
     (PRes.ok () { toks := [], st := [("a", 1)], out := ["1"] })
     (by decide) (by decide) "a"⟩

/-- C7: processing stops at the first error, of either kind: a failing
statement's error is the whole statement list's result, with table and
output exactly as they were when the statement began (no partial output,
no partial store); and an error raised while tokens remain is oblivious
to everything after the raise site — extending the program with further
statements changes neither the error nor the output nor the table, so
no later statement is parsed or executed and there is no
resynchronization. -/
theorem claim7_first_error_stops (f : Nat) (s : PState) (e : Err) (s' : PState) :
    ((la? s = some "id" ∨ la? s = some "print") →
      Runner.stmt f s = some (.err e s') →
      Runner.stmt_list (f + 1) s = some (.err e s')
        ∧ s'.st = s.st ∧ s'.out = s.out)
    ∧ (Runner.stmt_list f s = some (.err e s') → ∀ extra : List Tok,
        s'.toks ≠ [] →
        Runner.stmt_list f { toks := s.toks ++ extra, st := s.st, out := s.out }
          = some (.err e
              { toks := s'.toks ++ extra, st := s'.st, out := s'.out })) := by
  constructor
  · intro hla h
    refine ⟨?_, (stmt_err_frame f s e s' h).1, (stmt_err_frame f s e s' h).2⟩
    rw [Runner.stmt_list]
    rw [if_pos hla, h]
  · intro h extra hne
    have := stmt_list_append f s extra (.err e s') h hne
    simpa [PRes.appendToks] using this

/-- C7 witness: in `print 1` (already printed) followed by `print y`
followed by another statement, the undefined `y` aborts the whole list
with the output frozen, and appending a further statement to the input
changes nothing but the unread remainder. -/
theorem claim7_witness :
    (Runner.stmt_list 9
        { toks := [Tok.mk "print" "print", Tok.mk "id" "y",
            Tok.mk "print" "print", Tok.mk "binary" "1"],
          st := [], out := ["1"] }
      = some (.err (.undefinedVar "y")
          { toks := [Tok.mk "print" "print", Tok.mk "binary" "1"],
            st := [], out := ["1"] })
      ∧ ([] : List (String × Nat)) = [] ∧ (["1"] : List String) = ["1"])
    ∧ Runner.stmt_list 9
        { toks := [Tok.mk "print" "print", Tok.mk "id" "y",
            Tok.mk "print" "print", Tok.mk "binary" "1"] ++ [Tok.mk "id" "z"],
          st := [], out := ["1"] }
      = some (.err (.undefinedVar "y")
          { toks := [Tok.mk "print" "print", Tok.mk "binary" "1"]
              ++ [Tok.mk "id" "z"],
            st := [], out := ["1"] }) :=
  ⟨(claim7_first_error_stops 8
      { toks := [Tok.mk "print" "print", Tok.mk "id" "y",
          Tok.mk "print" "print", Tok.mk "binary" "1"],
        st := [], out := ["1"] }
      (.undefinedVar "y")
      { toks := [Tok.mk "print" "print", Tok.mk "binary" "1"],
        st := [], out := ["1"] }).1 (Or.inr (by decide)) (by decide),
   (claim7_first_error_stops 9
      { toks := [Tok.mk "print" "print", Tok.mk "id" "y",
          Tok.mk "print" "print", Tok.mk "binary" "1"],
        st := [], out := ["1"] }
      (.undefinedVar "y")
      { toks := [Tok.mk "print" "print", Tok.mk "binary" "1"],
        st := [], out := ["1"] }).2 (by decide) [Tok.mk "id" "z"] (by decide)⟩

/-- C8 counterexample: on the one-token program `)` the engine raises
from `stmt_list`'s FIRST-set check with the fixed message
`in stmt_list: id or print expected`, which names only the expected
kinds — the found token `)` is not mentioned (the message contains no
`)` character at all), refuting the claim that every syntax-failure
branch reports both the expected and the found token kind. -/
theorem claim8_counterexample :
    Runner.runProg 2 [Tok.mk ")" ")"]
      = some (.err (.parseError "in stmt_list: id or print expected")
          { toks := [Tok.mk ")" ")"], st := [], out := [] })
    ∧ "in stmt_list: id or print expected".data.contains ')' = false :=
  ⟨by decide, by decide⟩

/-- C8 amended: only the failures raised by `match` name both kinds, in
the message `found {found} instead of {expected}` (with `None` standing
for end of input); the failures raised by the FIRST-set checks of the
nonterminal procedures carry a fixed per-procedure message naming only
the expected kinds, never the found one — for example `stmt_list`'s
`in stmt_list: id or print expected` on any unexpected lookahead; the
driver wraps either text as `Parser Error: {message} at line L char C`. -/
theorem claim8_amended (tok : String) (s : PState) (e : Err) (s' : PState)
    (h : Runner.matchTok tok s = .err e s') :
    e = .parseError ("found " ++ laStr s ++ " instead of " ++ tok)
    ∧ (∀ (f : Nat) (s0 : PState),
        ¬(la? s0 = some "id" ∨ la? s0 = some "print") →
        ¬la? s0 = Option.none →
        Runner.stmt_list (f + 1) s0
          = some (.err (.parseError "in stmt_list: id or print expected") s0)) := by
  constructor
  · obtain ⟨ts, stt, outt⟩ := s
    cases ts with
    | nil =>
        simp only [Runner.matchTok] at h
        cases h
        rfl
    | cons t ts' =>
        simp only [Runner.matchTok] at h
        by_cases hla : t.la = tok
        · rw [if_pos hla] at h
          cases h
        · rw [if_neg hla] at h
          cases h
          rfl
  · intro f s0 h1 h2
    rw [Runner.stmt_list]
    rw [if_neg h1, if_neg h2]

/-- C8 amended witness: `x 1` fails in `match` with a message naming
found (`binary`) and expected (`=`); `) …` fails in the FIRST-set check
with the fixed stmt_list message. -/
theorem claim8_witness :
    Err.parseError "found binary instead of ="
      = .parseError ("found "
          ++ laStr { toks := [Tok.mk "binary" "1"], st := [], out := [] }
          ++ " instead of " ++ "=")
    ∧ (∀ (f : Nat) (s0 : PState),
        ¬(la? s0 = some "id" ∨ la? s0 = some "print") →
        ¬la? s0 = Option.none →
        Runner.stmt_list (f + 1) s0
          = some (.err (.parseError "in stmt_list: id or print expected") s0)) :=
  claim8_amended "=" { toks := [Tok.mk "binary" "1"], st := [], out := [] }
    (.parseError "found binary instead of =")
    { toks := [Tok.mk "binary" "1"], st := [], out := [] } (by decide)

/-- C9: on every token stream, fuel and starting state where the
evaluating engine of runner.py raises no undefined-identifier error, it
and the recognize-only engine of parser.py have the same acceptance
shape: they run out of fuel together, accept together with the same
remaining tokens, and raise a ParseError together. -/
theorem claim9_recognizer_equivalence (f : Nat) (ts : List Tok)
    (st : List (String × Nat)) (out : List String)
    (hUV : isUV (Runner.stmt_list f { toks := ts, st := st, out := out })
      = false) :
    rshape (Recog.stmt_list f ts)
      = eshape (Runner.stmt_list f { toks := ts, st := st, out := out }) :=
  sim_stmt_list f { toks := ts, st := st, out := out } hUV

/-- C9 witness: on `print 1 and 10` both engines accept. -/
theorem claim9_witness :
    rshape (Recog.stmt_list 9
        [Tok.mk "print" "print", Tok.mk "binary" "1",
         Tok.mk "and" "and", Tok.mk "binary" "10"])
      = eshape (Runner.stmt_list 9
          { toks := [Tok.mk "print" "print", Tok.mk "binary" "1",
              Tok.mk "and" "and", Tok.mk "binary" "10"],
            st := [], out := [] }) :=
  claim9_recognizer_equivalence 9
    [Tok.mk "print" "print", Tok.mk "binary" "1",
     Tok.mk "and" "and", Tok.mk "binary" "10"] [] [] (by decide)

/-- C10: assignment is atomic with respect to errors: when a statement
whose lookahead is an identifier (an assignment) raises — a syntax error
or an undefined identifier on the right-hand side — the symbol table it
leaves is exactly the one it started from, so the target identifier
keeps its previous binding or stays absent. -/
theorem claim10_assignment_atomic (f : Nat) (s : PState) (e : Err) (s' : PState)
    (hla : la? s = some "id") (h : Runner.stmt f s = some (.err e s')) :
    s'.st = s.st ∧ ∀ y, stGet s'.st y = stGet s.st y := by
  have hfr := stmt_err_frame f s e s' h
  exact ⟨hfr.1, fun y => by rw [hfr.1]⟩

/-- C10 witness: `x = y` with `y` unassigned and `x` bound to 1 errs and
keeps `x` bound to 1. -/
theorem claim10_witness :
    ([("x", 1)] : List (String × Nat)) = [("x", 1)]
    ∧ ∀ y, stGet ([("x", 1)] : List (String × Nat)) y = stGet [("x", 1)] y :=
  claim10_assignment_atomic 8
    { toks := [Tok.mk "id" "x", Tok.mk "=" "=", Tok.mk "id" "y"],
      st := [("x", 1)], out := [] }
    (.undefinedVar "y") { toks := [], st := [("x", 1)], out := [] }
    (by decide) (by decide)
